import Mathlib

/-!
Verification of the C-Suite configuration generator and test utilities.

This file gives a shallow embedding of the Python sources
`tools/script/generate_module.py` and
`integration_tests/csuite_test_utils.py` and proves properties of the
embedded definitions.  Pure string manipulation is embedded as Lean
functions on `String` / `List Char`; the filesystem effects of the
generator are embedded as explicit state passing over a finite
filesystem model; fallible operations return `Except`.
-/

set_option maxRecDepth 40000

namespace CSuite

/-- Characters stripped by Python's `str.strip()` with no arguments
(ASCII whitespace; the sources only ever contain ASCII). -/
def pyIsSpace (c : Char) : Bool :=
  c = ' ' || c = '\t' || c = '\n' || c = '\x0d' || c = '\x0b' || c = '\x0c'

/-- Python `s.strip()`: drop leading and trailing whitespace. -/
def pyStrip (s : String) : String :=
  ⟨((s.data.dropWhile pyIsSpace).reverse.dropWhile pyIsSpace).reverse⟩

/-- Python `s.startswith(p)`. -/
def pyStartsWith (s p : String) : Bool :=
  List.isPrefixOf p.data s.data

/-- Python `sub in s` (substring test), used by `_is_auto_generated`. -/
def containsSubstr (s sub : String) : Bool :=
  decide (sub.data <:+: s.data)

/-- The marker `_AUTO_GENERATE_NOTE` from `generate_module.py`. -/
def _AUTO_GENERATE_NOTE : String := "THIS FILE WAS AUTO-GENERATED. DO NOT EDIT MANUALLY!"

/-- `_ANDROID_BP_FILE_NAME`. -/
def _ANDROID_BP_FILE_NAME : String := "Android.bp"

/-- `_ANDROID_XML_FILE_NAME`. -/
def _ANDROID_XML_FILE_NAME : String := "AndroidTest.xml"

/-- `parse_package_list`: the source builds the set
`{line.strip() for line in package_list_file.readlines()}` and yields its
members that are non-empty and do not start with `'#'`.  The file is
modelled as its list of lines; the Python set is modelled as `dedup`
(first-occurrence order; set iteration order is unspecified in Python,
and all claims about this function are order-independent). -/
def parse_package_list (fileLines : List String) : List String :=
  ((fileLines.map pyStrip).dedup).filter (fun p => !(p == "" || pyStartsWith p "#"))

/-- The fixed text of `_BUILD_MODULE_HEADER` before the substituted
auto-generate note. -/
def _BUILD_MODULE_HEADER_PREFIX : String :=
  "// Copyright (C) 2019 The Android Open Source Project
//
// Licensed under the Apache License, Version 2.0 (the \"License\");
// you may not use this file except in compliance with the License.
// You may obtain a copy of the License at
//
//      http://www.apache.org/licenses/LICENSE-2.0
//
// Unless required by applicable law or agreed to in writing, software
// distributed under the License is distributed on an \"AS IS\" BASIS,
// WITHOUT WARRANTIES OR CONDITIONS OF ANY KIND, either express or implied.
// See the License for the specific language governing permissions and
// limitations under the License.

// "

/-- `_BUILD_MODULE_HEADER`: the license header template with
`{auto_generate_note}` substituted by `.format`. -/
def _BUILD_MODULE_HEADER : String :=
  _BUILD_MODULE_HEADER_PREFIX ++ _AUTO_GENERATE_NOTE ++ "\n\n"

/-- `_BUILD_MODULE_TEMPLATE.format(package_name=p)`: the template
`csuite_config {{\n    name: \"csuite_{package_name}\",\n}}\n` with the
escaped braces rendered literally and the placeholder substituted. -/
def buildModuleTemplate (package_name : String) : String :=
  "csuite_config \x7b\n    name: \"csuite_" ++ package_name ++ "\",\n\x7d\n"

/-- `write_build_module`: the source writes
`_BUILD_MODULE_HEADER + _BUILD_MODULE_TEMPLATE.format(...)` to the output
file; the embedding returns the written string. -/
def write_build_module (package_name : String) : String :=
  _BUILD_MODULE_HEADER ++ buildModuleTemplate package_name

/-! ## The test-module (`AndroidTest.xml`) generator

`write_test_module` builds an element tree with `xml.etree`, serializes
it with `ET.tostring`, re-parses with `minidom.parseString`, pretty
prints with `toprettyxml(indent='    ')`, drops the XML declaration and
applies `xml.sax.saxutils.unescape` to the result.  `parseString` is
inverse to `tostring` on element trees, so the composition is embedded
as a direct pretty printer over the tree (the exact `minidom` output
format) followed by the `unescape` pass. -/

/-- An element tree as built by `ET.Element` / `ET.SubElement`: a tag, an
ordered attribute list (Python 3.8+ keeps insertion order through
serialisation and pretty printing) and ordered child elements.  The trees
built by `write_test_module` never contain text nodes. -/
inductive XmlTree : Type where
  | elem (tag : String) (attrs : List (String × String)) (kids : List XmlTree) : XmlTree
deriving Repr

/-- `minidom`'s `_write_data` escaping applied to attribute values when
pretty printing: sequential replacement of `&`, `<`, `"`, `>` by their
entities.  Since `&` is replaced first and no replacement output contains
a later pattern's character, the sequential replaces equal this
character-wise expansion. -/
def writeEsc (v : List Char) : List Char :=
  v.flatMap (fun c =>
    if c = '&' then "&amp;".data
    else if c = '<' then "&lt;".data
    else if c = '"' then "&quot;".data
    else if c = '>' then "&gt;".data
    else [c])

/-- Attribute rendering of `minidom.Element.writexml`:
one leading space, `name="escaped value"` for each attribute in order. -/
def prettyAttrs : List (String × String) → List Char
  | [] => []
  | (n, v) :: rest => (' ' :: n.data) ++ ('=' :: '"' :: writeEsc v.data) ++ '"' :: prettyAttrs rest

mutual
/-- `minidom.Element.writexml` with `addindent='    '`, `newl='\n'`:
the element on its own line; childless elements close with `/>`; elements
with children indent them one level deeper. -/
def prettyElem (ind : List Char) : XmlTree → List Char
  | .elem tag attrs kids =>
    ind ++ ('<' :: tag.data) ++ prettyAttrs attrs ++
      (match kids with
       | [] => ['/', '>', '\n']
       | _ :: _ => ['>', '\n'] ++ prettyKids (ind ++ "    ".data) kids
           ++ ind ++ ('<' :: '/' :: tag.data) ++ ['>', '\n'])

/-- Children are written in order at the given indentation. -/
def prettyKids (ind : List Char) : List XmlTree → List Char
  | [] => []
  | t :: ts => prettyElem ind t ++ prettyKids ind ts
end

/-- `xml.sax.saxutils.unescape` with default entities: sequential
replacement of `&lt;` by `<`, then `&gt;` by `>`, then `&amp;` by `&`.
No replacement creates or overlaps a later pattern occurrence, so the
sequential passes equal this single left-to-right scan. -/
def sUnescape : List Char → List Char
  | [] => []
  | '&' :: 'l' :: 't' :: ';' :: rest => '<' :: sUnescape rest
  | '&' :: 'g' :: 't' :: ';' :: rest => '>' :: sUnescape rest
  | '&' :: 'a' :: 'm' :: 'p' :: ';' :: rest => '&' :: sUnescape rest
  | c :: cs => c :: sUnescape cs

/-- `_prettify`: pretty print the tree (declaration already dropped) and
apply `saxutils.unescape` to the pretty-printed text. -/
def _prettify (t : XmlTree) : String :=
  ⟨sUnescape (prettyElem [] t)⟩

/-- The fixed text of `_TEST_MODULE_HEADER` before the substituted
auto-generate note. -/
def _TEST_MODULE_HEADER_PREFIX : String :=
  "<?xml version=\"1.0\" encoding=\"utf-8\"?>
<!-- Copyright (C) 2019 The Android Open Source Project

     Licensed under the Apache License, Version 2.0 (the \"License\");
     you may not use this file except in compliance with the License.
     You may obtain a copy of the License at

          http://www.apache.org/licenses/LICENSE-2.0

     Unless required by applicable law or agreed to in writing, software
     distributed under the License is distributed on an \"AS IS\" BASIS,
     WITHOUT WARRANTIES OR CONDITIONS OF ANY KIND, either express or implied.
     See the License for the specific language governing permissions and
     limitations under the License.
-->
<!-- "

/-- `_TEST_MODULE_HEADER`: the XML header template with
`{auto_generate_note}` substituted by `.format`. -/
def _TEST_MODULE_HEADER : String :=
  _TEST_MODULE_HEADER_PREFIX ++ _AUTO_GENERATE_NOTE ++ "-->\n\n"

/-- `_CSUITE_LAUNCH_TEST_CLASS`. -/
def _CSUITE_LAUNCH_TEST_CLASS : String :=
  "com.android.compatibility.testtype.AppLaunchTest"

/-- `_CONFIG_TYPE_TARGET_PREPARER`. -/
def _CONFIG_TYPE_TARGET_PREPARER : String := "target_preparer"

/-- `_CONFIG_TYPE_TEST`. -/
def _CONFIG_TYPE_TEST : String := "test"

/-- `_MODULE_PREPARERS`: each entry is a preparer class together with the
attribute lists of its `option` children (each Python option dict
`{'name': n, 'value': v}` becomes the attribute list in insertion
order). -/
def _MODULE_PREPARERS : List (String × List (List (String × String))) :=
  [("com.android.tradefed.targetprep.TestAppInstallSetup",
     [[("name", "test-file-name"), ("value", "csuite-launch-instrumentation.apk")]]),
   ("com.android.compatibility.targetprep.AppSetupPreparer", []),
   ("com.android.tradefed.targetprep.RunCommandTargetPreparer",
     [[("name", "run-command"), ("value", "input keyevent KEYCODE_WAKEUP")],
      [("name", "run-command"), ("value", "input keyevent KEYCODE_MENU")],
      [("name", "run-command"), ("value", "input keyevent KEYCODE_HOME")]])]

/-- `_add_element_with_option`: a sub-element carrying a `class`
attribute, with one `option` child per option dict.  The Python function
mutates the parent; the embedding returns the created subtree, which
`write_test_module` places into the parent's child list. -/
def _add_element_with_option (sub_elem class_name : String)
    (options : List (List (String × String))) : XmlTree :=
  .elem sub_elem [("class", class_name)] (options.map (fun o => .elem "option" o []))

/-- The `configuration` element tree built by `write_test_module`. -/
def testConfiguration (package_name : String) : XmlTree :=
  .elem "configuration" [("description", "Tests the compatibility of apps")]
    ([XmlTree.elem "option"
        [("name", "config-descriptor:metadata"), ("key", "plan"), ("value", "app-launch")] [],
      XmlTree.elem "option" [("name", "package-name"), ("value", package_name)] []]
     ++ _MODULE_PREPARERS.map
          (fun pc => _add_element_with_option _CONFIG_TYPE_TARGET_PREPARER pc.1 pc.2)
     ++ [_add_element_with_option _CONFIG_TYPE_TEST _CSUITE_LAUNCH_TEST_CLASS []])

/-- `write_test_module`: the source writes
`_TEST_MODULE_HEADER + _prettify(configuration)`; the embedding returns
the written string. -/
def write_test_module (package_name : String) : String :=
  _TEST_MODULE_HEADER ++ _prettify (testConfiguration package_name)

/-! ## Well-formedness of the generated document

The generated test descriptor is supposed to be a well-formed XML
document: the fixed prolog (declaration, license comment and marker
comment — themselves fixed, well-formed markup) followed by the
serialisation of an element tree whose attribute values carry the
mandatory escapes (`&` as `&amp;`, `<` as `&lt;` and, since the values
are double quoted, `"` as `&quot;`; a raw `>` is legal inside an
attribute value).  `WellFormedTestDoc` states exactly that; it is the
notion of well-formedness used for the claims below.  `ltOk` is a
necessary condition of any such document — every `<` is followed by a
name start, `/`, `!` or `?` — used to refute well-formedness. -/

/-- Mandatory-only escaping of a double-quoted XML attribute value:
`&`, `<` and `"` are replaced by entities, everything else (including
`>`) is kept raw. -/
def canonEsc (v : List Char) : List Char :=
  v.flatMap (fun c =>
    if c = '&' then "&amp;".data
    else if c = '<' then "&lt;".data
    else if c = '"' then "&quot;".data
    else [c])

/-- Attribute rendering with mandatory-only escaping. -/
def canonAttrs : List (String × String) → List Char
  | [] => []
  | (n, v) :: rest => (' ' :: n.data) ++ ('=' :: '"' :: canonEsc v.data) ++ '"' :: canonAttrs rest

mutual
/-- The pretty layout of `prettyElem` with mandatory-only escaping of
attribute values. -/
def canonElem (ind : List Char) : XmlTree → List Char
  | .elem tag attrs kids =>
    ind ++ ('<' :: tag.data) ++ canonAttrs attrs ++
      (match kids with
       | [] => ['/', '>', '\n']
       | _ :: _ => ['>', '\n'] ++ canonKids (ind ++ "    ".data) kids
           ++ ind ++ ('<' :: '/' :: tag.data) ++ ['>', '\n'])

/-- Children rendered in order with mandatory-only escaping. -/
def canonKids (ind : List Char) : List XmlTree → List Char
  | [] => []
  | t :: ts => canonElem ind t ++ canonKids ind ts
end

/-- Characters allowed in an XML name (restricted to the ASCII repertoire
the generator uses). -/
def nameOkChar (c : Char) : Bool :=
  c.isAlpha || c.isDigit || c = '_' || c = '-' || c = '.' || c = ':'

/-- A valid XML name starting with a letter. -/
def nameOk (n : List Char) : Bool :=
  match n with
  | [] => false
  | c :: _ => c.isAlpha && n.all nameOkChar

/-- Characters that may appear in an XML document at all
(the `Char` production of XML 1.0). -/
def valOkChar (c : Char) : Bool :=
  c = '\t' || c = '\n' || c = '\x0d' ||
    (decide (' ' ≤ c) && c.val != 0xFFFE && c.val != 0xFFFF)

/-- Valid attribute lists: valid names, XML-representable values. -/
def attrsOk (attrs : List (String × String)) : Bool :=
  attrs.all (fun a => nameOk a.1.data && a.2.data.all valOkChar)

mutual
/-- A tree all of whose tags and attributes are valid. -/
def treeOk : XmlTree → Bool
  | .elem tag attrs kids => nameOk tag.data && attrsOk attrs && kidsOk kids

/-- All trees of a list are valid. -/
def kidsOk : List XmlTree → Bool
  | [] => true
  | t :: ts => treeOk t && kidsOk ts
end

/-- The generated document is well formed: it is the fixed prolog
followed by the canonical (mandatorily escaped, pretty-printed)
serialisation of some valid element tree. -/
def WellFormedTestDoc (s : String) : Prop :=
  ∃ t : XmlTree, treeOk t = true ∧ s = _TEST_MODULE_HEADER ++ ⟨canonElem [] t⟩

/-- Characters that may legally follow a `<` in a well-formed document of
the above shape: a name start letter, `/`, `!` or `?`. -/
def ltFollower (c : Char) : Bool :=
  c.isAlpha || c = '/' || c = '!' || c = '?'

/-- Necessary condition: every `<` in the text is followed by a
`ltFollower` character (in particular `<` is never last). -/
def ltOk : List Char → Bool
  | [] => true
  | c :: rest =>
    if c = '<' then
      match rest with
      | [] => false
      | d :: _ => ltFollower d && ltOk rest
    else ltOk rest

/-- No `<` occurs in the text at all. -/
def noLt (l : List Char) : Bool := l.all (fun c => c != '<')

/-- No `&` occurs in the text at all. -/
def noAmp (l : List Char) : Bool := l.all (fun c => c != '&')

/-- Attribute lists whose names contain no `&` and whose values contain
neither `&` nor `<`. -/
def safeAttrs (attrs : List (String × String)) : Bool :=
  attrs.all (fun a => noAmp a.1.data && a.2.data.all (fun c => c != '&' && c != '<'))

mutual
/-- Trees whose tags and attribute names contain no `&` and whose
attribute values contain neither `&` nor `<`: on these the `unescape`
pass only undoes the superfluous `>` escape. -/
def safeTree : XmlTree → Bool
  | .elem tag attrs kids => noAmp tag.data && safeAttrs attrs && safeKids kids

/-- All trees of a list are safe. -/
def safeKids : List XmlTree → Bool
  | [] => true
  | t :: ts => safeTree t && safeKids ts
end

/-- A string `s` contains `sub` as a contiguous substring. -/
def ContainsSub (s sub : String) : Prop :=
  ∃ a b : String, s = a ++ sub ++ b

deriving instance DecidableEq for Except

/-- The child list of an element. -/
def XmlTree.children : XmlTree → List XmlTree
  | .elem _ _ kids => kids

/-- Package names on which the generated test descriptor stays well
formed: no `&`, no `<`, and only XML-representable characters. -/
def goodPkg (p : String) : Bool :=
  p.data.all (fun c => c != '&' && c != '<' && valOkChar c)

/-! ## Filesystem model for the generator's effects

`generate_all_modules_from_config` works on the filesystem under
`root_dir`.  The model is a finite filesystem of files (path and text
content) and directories, with paths as lists of components relative to
the root.  A package identifier is used as a single path component
(`os.path.join(root_dir, package_name)`); the claims' hypotheses restrict
identifiers accordingly. -/

/-- A path relative to the root directory, as a list of components. -/
abbrev DirPath := List String

/-- A finite filesystem rooted at the generator's `root_dir`. -/
structure Fs where
  files : List (DirPath × String)
  dirs : List DirPath
deriving Repr, DecidableEq

/-- Errors raised by the filesystem operations the generator uses:
`os.mkdir` on an existing path, `open` on a directory. -/
inductive FsError : Type where
  | fileExists : FsError
  | isADirectory : FsError
deriving Repr, DecidableEq

/-- `_is_auto_generated`: the source opens the file and evaluates
`_AUTO_GENERATE_NOTE in f.read()`; the model receives the content. -/
def _is_auto_generated (content : String) : Bool :=
  containsSubstr content _AUTO_GENERATE_NOTE

/-- Whether a path is matched by the glob pattern
`root_dir + '/**/<name>'`.  `remove_existing_package_files` calls
`glob.iglob` without `recursive=True`, so `**` matches like `*`: exactly
one path component, and like every glob wildcard it does not match
components starting with a dot.  The pattern hence matches exactly the
entries `<d>/<name>` one directory below the root with `d` not hidden. -/
def globMatch (name : String) (p : DirPath) : Bool :=
  match p with
  | [d, f] => f == name && !pyStartsWith d "."
  | _ => false

/-- The combined keep-predicate of the two deletion passes: an entry is
removed exactly when the glob of one of the two descriptor names matches
it and its content carries the marker. -/
def keepFile (e : DirPath × String) : Bool :=
  !((globMatch _ANDROID_XML_FILE_NAME e.1 || globMatch _ANDROID_BP_FILE_NAME e.1) &&
    _is_auto_generated e.2)

/-- One glob-and-delete pass of `remove_existing_package_files`:
`os.remove` every matched file whose content carries the marker.  A
directory matched by the pattern would make `_is_auto_generated`'s
`open` raise `IsADirectoryError`. -/
def removeGlobbed (fs : Fs) (name : String) : Except FsError Fs :=
  if fs.dirs.any (globMatch name) then .error .isADirectory
  else .ok { fs with
    files := fs.files.filter (fun e => !(globMatch name e.1 && _is_auto_generated e.2)) }

/-- Emptiness of `os.listdir(root/<d>)`: directory `[d]` is empty when no
file or directory lies immediately below it. -/
def dirIsEmpty (fs : Fs) (d : String) : Bool :=
  fs.files.all (fun e => !(e.1.length == 2 && e.1.head? == some d)) &&
  fs.dirs.all (fun q => !(q.length == 2 && q.head? == some d))

/-- The keep-predicate of the empty-directory sweep: a depth-one
directory is kept when its listing is non-empty; everything else is
untouched. -/
def emptyDirPred (fs : Fs) (p : DirPath) : Bool :=
  match p with
  | [d] => !dirIsEmpty fs d
  | _ => true

/-- `_remove_empty_dirs(root_dir)`: for each entry of `os.listdir(root)`,
remove it with `os.rmdir` when it is a directory with an empty listing.
Only depth-one directories are examined, and removing one cannot change
another's emptiness, so the sweep is a filter. -/
def _remove_empty_dirs (fs : Fs) : Fs :=
  { fs with dirs := fs.dirs.filter (emptyDirPred fs) }

/-- `remove_existing_package_files`: delete auto-generated
`AndroidTest.xml` files matched one level below the root, then the
`Android.bp` ones, then remove emptied direct child directories. -/
def remove_existing_package_files (fs : Fs) : Except FsError Fs := do
  let fs1 ← removeGlobbed fs _ANDROID_XML_FILE_NAME
  let fs2 ← removeGlobbed fs1 _ANDROID_BP_FILE_NAME
  .ok (_remove_empty_dirs fs2)

/-- `_create_package_dir`: `os.mkdir(os.path.join(root_dir, package))`,
raising `FileExistsError` when an entry with that name exists. -/
def _create_package_dir (fs : Fs) (package_name : String) : Except FsError Fs :=
  if [package_name] ∈ fs.dirs || fs.files.any (fun e => e.1 == [package_name]) then
    .error .fileExists
  else .ok { fs with dirs := [package_name] :: fs.dirs }

/-- `open(path, 'w')` followed by writing the full content: create the
file or overwrite an existing one. -/
def writeFile (fs : Fs) (p : DirPath) (content : String) : Fs :=
  { fs with files := (p, content) :: fs.files.filter (fun e => e.1 != p) }

/-- `_generate_module_files`: create the package directory, then write
the build module and the test module into it. -/
def _generate_module_files (fs : Fs) (package_name : String) : Except FsError Fs := do
  let fs1 ← _create_package_dir fs package_name
  let fs2 := writeFile fs1 [package_name, _ANDROID_BP_FILE_NAME]
    (write_build_module package_name)
  .ok (writeFile fs2 [package_name, _ANDROID_XML_FILE_NAME]
    (write_test_module package_name))

/-- The generation loop of `generate_all_modules_from_config`:
`_generate_module_files(line.strip(), root_dir)` for each parsed line. -/
def generateLoop (fs : Fs) : List String → Except FsError Fs
  | [] => .ok fs
  | p :: ps => do
    let fs1 ← _generate_module_files fs (pyStrip p)
    generateLoop fs1 ps

/-- `generate_all_modules_from_config`: the cleanup pass followed by
generation for every package of the parsed list. -/
def generate_all_modules_from_config (fs : Fs) (fileLines : List String) :
    Except FsError Fs := do
  let fs1 ← remove_existing_package_files fs
  generateLoop fs1 (parse_package_list fileLines)

/-- The descriptor files generated for the packages of `ps`, in the list
order the generation loop leaves them in (`writeFile` prepends, later
packages end up in front). -/
def genFilesRev : List String → List (DirPath × String)
  | [] => []
  | p :: ps => genFilesRev ps ++
      [([p, _ANDROID_XML_FILE_NAME], write_test_module p),
       ([p, _ANDROID_BP_FILE_NAME], write_build_module p)]

/-- The package directories created for `ps`, in the order the loop
leaves them in. -/
def genDirsRev : List String → List DirPath
  | [] => []
  | p :: ps => genDirsRev ps ++ [[p]]

/-- The non-empty proper prefixes of a path — the chain of parent
directories above an entry. -/
def parentsOf : DirPath → List DirPath
  | [] => []
  | [_] => []
  | d :: x :: rest => [d] :: (parentsOf (x :: rest)).map (d :: ·)

/-- Prefix closure: every parent directory of an existing entry exists.
Real filesystems satisfy this; the cleanup and the generation preserve
it. -/
def fsClosed (fs : Fs) : Bool :=
  fs.files.all (fun e => (parentsOf e.1).all (fun q => fs.dirs.contains q)) &&
  fs.dirs.all (fun q => (parentsOf q).all (fun r => fs.dirs.contains r))

/-- States like those left behind by the cleanup pass: every file passes
the keep predicate, every direct child directory of the root is
non-empty, the filesystem is prefix closed, and no directory is matched
by the descriptor globs. -/
def CleanFs (fs : Fs) : Prop :=
  (∀ e ∈ fs.files, keepFile e = true) ∧
  (∀ x : String, [x] ∈ fs.dirs → dirIsEmpty fs x = false) ∧
  fsClosed fs = true ∧
  fs.dirs.any (globMatch _ANDROID_XML_FILE_NAME) = false ∧
  fs.dirs.any (globMatch _ANDROID_BP_FILE_NAME) = false

/-! ## Model of `csuite_test_utils.py`

External processes are modelled by a world function from the invoked
argument vector to the process outcome; `subprocess.run` with
`capture_output=True, universal_newlines=True` consults it. -/

/-- Exit code and captured streams of one external command. -/
structure ProcOutcome where
  returncode : Int
  stdout : String
  stderr : String
deriving Repr, DecidableEq

/-- The behaviour of the external tool being wrapped. -/
abbrev World := List String → ProcOutcome

/-- `subprocess.CompletedProcess` as returned by `subprocess.run`. -/
structure CompletedProcess where
  args : List String
  returncode : Int
  stdout : String
  stderr : String
deriving Repr, DecidableEq

/-- `subprocess.CalledProcessError` carrying the command, the exit code
and the captured streams. -/
structure CalledProcessError where
  returncode : Int
  cmd : List String
  stdout : String
  stderr : String
deriving Repr, DecidableEq

/-- `subprocess.run(args, capture_output=True, universal_newlines=True,
check=check)`: wait for the command, capture its output, and raise
`CalledProcessError` on a non-zero exit when `check` is set. -/
def subprocess_run (world : World) (args : List String) (check : Bool) :
    Except CalledProcessError CompletedProcess :=
  let r := world args
  if check && r.returncode != 0 then
    .error ⟨r.returncode, args, r.stdout, r.stderr⟩
  else
    .ok ⟨args, r.returncode, r.stdout, r.stderr⟩

/-- The `Adb` wrapper: its `_args` prefix (the adb binary and, when a
device serial is known, `-s <serial>`), built by `Adb.__init__`. -/
structure Adb where
  args : List String
deriving Repr, DecidableEq

/-- `Adb.run`: when the caller passes no `check` value (`None`), it
defaults to `True`; the full command is the stored prefix followed by
the arguments. -/
def Adb.run (world : World) (adb : Adb) (args : List String)
    (check : Option Bool) : Except CalledProcessError CompletedProcess :=
  subprocess_run world (adb.args ++ args) (check.getD true)

/-- `Adb.shell`: delegates to `run` with `'shell'` prepended. -/
def Adb.shell (world : World) (adb : Adb) (args : List String)
    (check : Option Bool) : Except CalledProcessError CompletedProcess :=
  Adb.run world adb ("shell" :: args) check

/-- `Adb.uninstall`: `run(['uninstall', package_name], check=check)`. -/
def Adb.uninstall (world : World) (adb : Adb) (package_name : String)
    (check : Option Bool) : Except CalledProcessError CompletedProcess :=
  Adb.run world adb ["uninstall", package_name] check

/-- Python `s.split(':')` on the character list (single-character
separator): empty input gives one empty field. -/
def splitColonChars : List Char → List (List Char)
  | [] => [[]]
  | c :: rest =>
    if c = ':' then [] :: splitColonChars rest
    else
      match splitColonChars rest with
      | r :: rs => (c :: r) :: rs
      | [] => [[c]]

/-- Python `l.split(':')`. -/
def pySplitColon (s : String) : List String :=
  (splitColonChars s.data).map (fun l => ⟨l⟩)

/-- Splitting a character list at `\n` (single-character separator):
empty input gives one empty field. -/
def splitNlChars : List Char → List (List Char)
  | [] => [[]]
  | c :: rest =>
    if c = '\n' then [] :: splitNlChars rest
    else
      match splitNlChars rest with
      | r :: rs => (c :: r) :: rs
      | [] => [[c]]

/-- Python `s.splitlines()` restricted to `\n` line breaks (the adb
output is opened with universal newlines): like splitting on `\n`
except that a trailing newline does not produce a final empty line and
the empty string has no lines. -/
def pySplitlines (s : String) : List String :=
  if s = "" then []
  else
    let parts := (splitNlChars s.data).map (fun l => (⟨l⟩ : String))
    if parts.getLast? = some "" then parts.dropLast else parts

/-- Errors of `Adb.list_packages`: the checked `shell` call failing, or
`split(':')[1]` raising `IndexError` on a line without a colon. -/
inductive ListPackagesError where
  | commandFailed (e : CalledProcessError)
  | indexError
deriving Repr, DecidableEq

/-- `l.split(':')[1]` for one stdout line: the second colon-separated
field, raising `IndexError` when the subscript is out of range. -/
def lineField (l : String) : Except ListPackagesError String :=
  match (pySplitColon l).get? 1 with
  | some x => .ok x
  | none => .error .indexError

/-- `Adb.list_packages`: run `pm list packages` (checked), then take
`l.split(':')[1]` of every stdout line. -/
def Adb.list_packages (world : World) (adb : Adb) :
    Except ListPackagesError (List String) := do
  let p ← (Adb.shell world adb ["pm", "list", "packages"] none).mapError .commandFailed
  (pySplitlines p.stdout).mapM lineField

/-- The claim's `prefix:identifier` line format: one colon separating a
colon-free prefix from a colon-free identifier. -/
def wellFormedPkgLine (l : String) : Prop :=
  ∃ pre pkgid : String, l = pre ++ ":" ++ pkgid ∧ ':' ∉ pre.data ∧ ':' ∉ pkgid.data

/-- A `PackageRepository` is its filesystem under the temporary root
directory. -/
structure PackageRepository where
  root : Fs
deriving Repr, DecidableEq

/-- A freshly constructed repository: an empty temporary directory. -/
def PackageRepository.init : PackageRepository := ⟨⟨[], []⟩⟩

/-- `PackageRepository.add_package_apks`: `apk_dir.mkdir()` — raising if
the directory already exists — followed by `shutil.copy` of every
artifact into it.  An artifact is modelled as its base name and
content. -/
def PackageRepository.add_package_apks (repo : PackageRepository)
    (package_name : String) (apk_paths : List (String × String)) :
    Except FsError PackageRepository :=
  if [package_name] ∈ repo.root.dirs ∨
     (repo.root.files.any (fun e => e.1 == [package_name])) = true then
    .error .fileExists
  else
    .ok ⟨apk_paths.foldl (fun fs f => writeFile fs [package_name, f.1] f.2)
      { repo.root with dirs := [package_name] :: repo.root.dirs }⟩

/-- A process environment (`os.environ.copy()`): an association list
from variable names to values. -/
abbrev Env := List (String × String)

/-- `env[k]` as a lookup. -/
def envLookup (env : Env) (k : String) : Option String :=
  (env.find? (fun e => e.1 == k)).map (·.2)

/-- Python `del env[k]`: raises `KeyError(k)` when the key is absent. -/
def envDel (env : Env) (k : String) : Except String Env :=
  if (env.any (fun e => e.1 == k)) = true then
    .ok (env.filter (fun e => e.1 != k))
  else .error k

/-- `env[k] = v`. -/
def envSet (env : Env) (k v : String) : Env :=
  (k, v) :: env.filter (fun e => e.1 != k)

/-- `CSuiteHarness.run_and_wait`: copy the environment, delete the five
Android build variables (`del` raises `KeyError` on a missing one), set
`ANDROID_TARGET_OUT_TESTCASES` to the harness's fresh test-case
directory, and run the launcher with `check=False`, capturing the
output.  The world function here also receives the environment the
launcher is invoked with. -/
def run_and_wait (world : List String → Env → ProcOutcome)
    (launcher_binary testcases_dir : String) (env0 : Env) (flags : List String) :
    Except String CompletedProcess := do
  let env1 ← envDel env0 "ANDROID_BUILD_TOP"
  let env2 ← envDel env1 "ANDROID_HOST_OUT"
  let env3 ← envDel env2 "ANDROID_HOST_OUT_TESTCASES"
  let env4 ← envDel env3 "ANDROID_TARGET_OUT_TESTCASES"
  let env5 ← envDel env4 "ANDROID_SERIAL"
  let env6 := envSet env5 "ANDROID_TARGET_OUT_TESTCASES" testcases_dir
  let r := world (launcher_binary :: flags) env6
  .ok ⟨launcher_binary :: flags, r.returncode, r.stdout, r.stderr⟩

/-- The environment `run_and_wait` hands to the launcher when every
deletion succeeds: the five variables removed, then
`ANDROID_TARGET_OUT_TESTCASES` pointing at the test-case directory. -/
def finalEnv (testcases_dir : String) (env0 : Env) : Env :=
  envSet
    (((((env0.filter (fun e => e.1 != "ANDROID_BUILD_TOP")).filter
        (fun e => e.1 != "ANDROID_HOST_OUT")).filter
        (fun e => e.1 != "ANDROID_HOST_OUT_TESTCASES")).filter
        (fun e => e.1 != "ANDROID_TARGET_OUT_TESTCASES")).filter
        (fun e => e.1 != "ANDROID_SERIAL"))
    "ANDROID_TARGET_OUT_TESTCASES" testcases_dir

theorem containsSub_of_eq {s a sub b : String} (h : s = a ++ sub ++ b) :
    ContainsSub s sub := ⟨a, b, h⟩

/-! ## Lemmas about `sUnescape` -/

theorem sUnescape_cons_ne (c : Char) (cs : List Char) (h : ¬ c = '&') :
    sUnescape (c :: cs) = c :: sUnescape cs := by
  rw [sUnescape.eq_def]
  split
  all_goals rename_i heq
  · exact absurd heq (List.cons_ne_nil c cs)
  · rw [List.cons.injEq] at heq
    exact absurd heq.1 h
  · rw [List.cons.injEq] at heq
    exact absurd heq.1 h
  · rw [List.cons.injEq] at heq
    exact absurd heq.1 h
  · rw [List.cons.injEq] at heq
    rw [heq.1, heq.2]

theorem sUnescape_append_of_noAmp (a b : List Char) (h : noAmp a = true) :
    sUnescape (a ++ b) = a ++ sUnescape b := by
  induction a with
  | nil => simp
  | cons c a ih =>
    simp only [noAmp, List.all_cons, Bool.and_eq_true, bne_iff_ne, ne_eq] at h
    rw [List.cons_append, sUnescape_cons_ne c _ h.1, ih h.2]
    rfl

theorem sUnescape_quot (xs : List Char) :
    sUnescape ('&' :: 'q' :: 'u' :: 'o' :: 't' :: ';' :: xs) =
      '&' :: 'q' :: 'u' :: 'o' :: 't' :: ';' :: sUnescape xs := rfl

theorem sUnescape_gt (xs : List Char) :
    sUnescape ('&' :: 'g' :: 't' :: ';' :: xs) = '>' :: sUnescape xs := rfl

/-- Unescaping the `minidom` escape of an attribute value that contains
neither `&` nor `<` yields exactly the mandatory-only escaping of the
value: `"` stays escaped, the `>` escape is undone. -/
theorem sUnescape_writeEsc (v b : List Char)
    (h : v.all (fun c => c != '&' && c != '<') = true) :
    sUnescape (writeEsc v ++ b) = canonEsc v ++ sUnescape b := by
  induction v with
  | nil => simp [writeEsc, canonEsc]
  | cons c v ih =>
    simp only [List.all_cons, Bool.and_eq_true, bne_iff_ne, ne_eq] at h
    obtain ⟨⟨hamp, hlt⟩, hrest⟩ := h
    have hw : writeEsc (c :: v) =
        (if c = '&' then "&amp;".data
         else if c = '<' then "&lt;".data
         else if c = '"' then "&quot;".data
         else if c = '>' then "&gt;".data
         else [c]) ++ writeEsc v := by
      simp [writeEsc]
    have hc : canonEsc (c :: v) =
        (if c = '&' then "&amp;".data
         else if c = '<' then "&lt;".data
         else if c = '"' then "&quot;".data
         else [c]) ++ canonEsc v := by
      simp [canonEsc]
    by_cases hq : c = '"'
    · subst hq
      rw [hw, hc]
      simp only [if_neg hamp, if_neg hlt, if_pos rfl]
      show sUnescape ('&' :: 'q' :: 'u' :: 'o' :: 't' :: ';' :: (writeEsc v ++ b)) = _
      rw [sUnescape_quot, ih hrest]
      rfl
    · by_cases hg : c = '>'
      · subst hg
        rw [hw, hc]
        simp only [if_neg hamp, if_neg hlt, if_neg (by decide : ¬ ('>' : Char) = '"'),
          if_pos rfl]
        show sUnescape ('&' :: 'g' :: 't' :: ';' :: (writeEsc v ++ b)) = _
        rw [sUnescape_gt, ih hrest]
        rfl
      · rw [hw, hc]
        simp only [if_neg hamp, if_neg hlt, if_neg hq, if_neg hg, List.singleton_append]
        rw [List.cons_append, sUnescape_cons_ne c _ hamp, ih hrest]
        rfl

theorem noAmp_append (a b : List Char) :
    noAmp (a ++ b) = (noAmp a && noAmp b) := by
  simp [noAmp, List.all_append]

theorem sUnescape_prettyAttrs (attrs : List (String × String)) (b : List Char)
    (h : safeAttrs attrs = true) :
    sUnescape (prettyAttrs attrs ++ b) = canonAttrs attrs ++ sUnescape b := by
  induction attrs with
  | nil => simp [prettyAttrs, canonAttrs]
  | cons a rest ih =>
    obtain ⟨n, v⟩ := a
    simp only [safeAttrs, List.all_cons, Bool.and_eq_true] at h
    obtain ⟨⟨hn, hv⟩, hrest⟩ := h
    simp only [prettyAttrs, canonAttrs, List.append_assoc, List.cons_append,
      List.nil_append]
    rw [sUnescape_cons_ne ' ' _ (by decide), sUnescape_append_of_noAmp n.data _ hn,
      sUnescape_cons_ne '=' _ (by decide), sUnescape_cons_ne '"' _ (by decide),
      sUnescape_writeEsc v.data _ hv, sUnescape_cons_ne '"' _ (by decide),
      ih hrest]

mutual
theorem sUnescape_prettyElem (ind : List Char) (t : XmlTree) (b : List Char)
    (hind : noAmp ind = true) (ht : safeTree t = true) :
    sUnescape (prettyElem ind t ++ b) = canonElem ind t ++ sUnescape b := by
  cases t with
  | elem tag attrs kids =>
    rw [safeTree] at ht
    simp only [Bool.and_eq_true] at ht
    obtain ⟨⟨htag, hattrs⟩, hkids⟩ := ht
    cases kids with
    | nil =>
      simp only [prettyElem, canonElem, List.append_assoc, List.cons_append,
        List.nil_append]
      rw [sUnescape_append_of_noAmp ind _ hind, sUnescape_cons_ne '<' _ (by decide),
        sUnescape_append_of_noAmp tag.data _ htag, sUnescape_prettyAttrs attrs _ hattrs,
        sUnescape_cons_ne '/' _ (by decide), sUnescape_cons_ne '>' _ (by decide),
        sUnescape_cons_ne '\n' _ (by decide)]
    | cons k ks =>
      simp only [prettyElem, canonElem, List.append_assoc, List.cons_append,
        List.nil_append]
      rw [sUnescape_append_of_noAmp ind _ hind, sUnescape_cons_ne '<' _ (by decide),
        sUnescape_append_of_noAmp tag.data _ htag, sUnescape_prettyAttrs attrs _ hattrs,
        sUnescape_cons_ne '>' _ (by decide), sUnescape_cons_ne '\n' _ (by decide),
        sUnescape_prettyKids (ind ++ "    ".data) (k :: ks) _
          (by rw [noAmp_append, hind]; decide) hkids,
        sUnescape_append_of_noAmp ind _ hind, sUnescape_cons_ne '<' _ (by decide),
        sUnescape_cons_ne '/' _ (by decide), sUnescape_append_of_noAmp tag.data _ htag,
        sUnescape_cons_ne '>' _ (by decide), sUnescape_cons_ne '\n' _ (by decide)]

theorem sUnescape_prettyKids (ind : List Char) (ts : List XmlTree) (b : List Char)
    (hind : noAmp ind = true) (hts : safeKids ts = true) :
    sUnescape (prettyKids ind ts ++ b) = canonKids ind ts ++ sUnescape b := by
  cases ts with
  | nil => simp [prettyKids, canonKids]
  | cons t ts =>
    rw [safeKids] at hts
    simp only [Bool.and_eq_true] at hts
    simp only [prettyKids, canonKids, List.append_assoc]
    rw [sUnescape_prettyElem ind t _ hind hts.1, sUnescape_prettyKids ind ts b hind hts.2]
end

/-- `_prettify` on a safe tree is exactly the canonical rendering. -/
theorem prettify_eq_canon (t : XmlTree) (h : safeTree t = true) :
    _prettify t = ⟨canonElem [] t⟩ := by
  have := sUnescape_prettyElem [] t [] (by decide) h
  simp only [List.append_nil] at this
  simp only [_prettify, this]
  have h2 : sUnescape [] = [] := rfl
  rw [h2, List.append_nil]

/-! ## Lemmas about `ltOk` -/

theorem ltOk_cons_ne (c : Char) (cs : List Char) (h : ¬ c = '<') :
    ltOk (c :: cs) = ltOk cs := by
  rw [ltOk.eq_def]
  split
  all_goals rename_i heq
  · exact absurd heq (List.cons_ne_nil c cs)
  · rw [List.cons.injEq] at heq
    obtain ⟨hc, hcs⟩ := heq
    subst hc
    subst hcs
    rw [if_neg h]

theorem ltOk_cons_lt (d : Char) (cs : List Char) :
    ltOk ('<' :: d :: cs) = (ltFollower d && ltOk (d :: cs)) := rfl

theorem noLt_append (a b : List Char) :
    noLt (a ++ b) = (noLt a && noLt b) := by
  simp [noLt, List.all_append]

theorem ltOk_of_noLt (l : List Char) (h : noLt l = true) : ltOk l = true := by
  induction l with
  | nil => rfl
  | cons c cs ih =>
    simp only [noLt, List.all_cons, Bool.and_eq_true, bne_iff_ne, ne_eq] at h
    rw [ltOk_cons_ne c cs h.1]
    exact ih h.2

theorem getLast?_ne_of_noLt (l : List Char) (h : noLt l = true) :
    l.getLast? ≠ some '<' := by
  induction l with
  | nil => simp
  | cons c cs ih =>
    cases cs with
    | nil =>
      simp only [noLt, List.all_cons, List.all_nil, Bool.and_true, bne_iff_ne, ne_eq] at h
      simp only [List.getLast?_singleton, ne_eq, Option.some.injEq]
      exact h
    | cons d ds =>
      rw [List.getLast?_cons_cons]
      apply ih
      simp only [noLt, List.all_cons, Bool.and_eq_true] at h ⊢
      exact h.2

theorem ltOk_append (a b : List Char) (h2 : ltOk b = true) :
    ∀ (_ : ltOk a = true) (_ : a.getLast? ≠ some '<'), ltOk (a ++ b) = true := by
  induction a with
  | nil =>
    intro _ _
    simpa using h2
  | cons c a ih =>
    intro h1 h3
    by_cases hc : c = '<'
    · subst hc
      cases a with
      | nil => exact absurd h1 (by decide)
      | cons d a' =>
        rw [List.cons_append, List.cons_append, ltOk_cons_lt]
        rw [ltOk_cons_lt] at h1
        simp only [Bool.and_eq_true] at h1
        rw [List.getLast?_cons_cons] at h3
        have ihx := ih h1.2 h3
        rw [List.cons_append] at ihx
        simp only [Bool.and_eq_true]
        exact ⟨h1.1, ihx⟩
    · cases a with
      | nil =>
        rw [List.singleton_append, ltOk_cons_ne c b hc]
        exact h2
      | cons d a' =>
        rw [List.cons_append, ltOk_cons_ne c _ hc]
        rw [ltOk_cons_ne c _ hc] at h1
        rw [List.getLast?_cons_cons] at h3
        exact ih h1 h3

theorem noLt_canonEsc (v : List Char) : noLt (canonEsc v) = true := by
  induction v with
  | nil => rfl
  | cons c v ih =>
    have hc : canonEsc (c :: v) =
        (if c = '&' then "&amp;".data
         else if c = '<' then "&lt;".data
         else if c = '"' then "&quot;".data
         else [c]) ++ canonEsc v := by
      simp [canonEsc]
    rw [hc, noLt_append, ih, Bool.and_true]
    split_ifs with h1 h2 h3
    · decide
    · decide
    · decide
    · simp [noLt, h2]

theorem nameOk_parts (n : List Char) (h : nameOk n = true) :
    n ≠ [] ∧ (∀ c ∈ n, nameOkChar c = true) ∧ n.head? ≠ some '<' := by
  cases n with
  | nil => exact absurd h (by decide)
  | cons c cs =>
    rw [nameOk] at h
    simp only [Bool.and_eq_true, List.all_eq_true] at h
    refine ⟨by simp, h.2, ?_⟩
    have := h.2 c (by simp)
    simp only [List.head?_cons, ne_eq, Option.some.injEq]
    intro hc
    rw [hc] at this
    exact absurd this (by decide)

theorem noLt_of_nameOk (n : List Char) (h : nameOk n = true) : noLt n = true := by
  obtain ⟨-, hall, -⟩ := nameOk_parts n h
  simp only [noLt, List.all_eq_true, bne_iff_ne, ne_eq]
  intro c hmem hc
  have := hall c hmem
  rw [hc] at this
  exact absurd this (by decide)

theorem noLt_cons (c : Char) (l : List Char) :
    noLt (c :: l) = ((c != '<') && noLt l) := by
  simp [noLt]

theorem noLt_canonAttrs (attrs : List (String × String)) (h : attrsOk attrs = true) :
    noLt (canonAttrs attrs) = true := by
  induction attrs with
  | nil => rfl
  | cons a rest ih =>
    obtain ⟨n, v⟩ := a
    simp only [attrsOk, List.all_cons, Bool.and_eq_true] at h
    obtain ⟨⟨hn, -⟩, hrest⟩ := h
    rw [canonAttrs]
    simp only [noLt_append, noLt_cons, noLt_of_nameOk n.data hn, noLt_canonEsc v.data,
      ih hrest, Bool.and_true, Bool.true_and]
    decide

theorem getLast?_append_ne (a b : List Char) (ha : a.getLast? ≠ some '<')
    (hb : b.getLast? ≠ some '<') : (a ++ b).getLast? ≠ some '<' := by
  cases b with
  | nil => simpa using ha
  | cons x xs =>
    rw [List.getLast?_append_of_ne_nil a (by simp)]
    exact hb

theorem ltOk_append_both (a b : List Char)
    (ha : ltOk a = true ∧ a.getLast? ≠ some '<')
    (hb : ltOk b = true ∧ b.getLast? ≠ some '<') :
    ltOk (a ++ b) = true ∧ (a ++ b).getLast? ≠ some '<' :=
  ⟨ltOk_append a b hb.1 ha.1 ha.2, getLast?_append_ne a b ha.2 hb.2⟩

theorem ltOk_info_of_noLt (l : List Char) (h : noLt l = true) :
    ltOk l = true ∧ l.getLast? ≠ some '<' :=
  ⟨ltOk_of_noLt l h, getLast?_ne_of_noLt l h⟩

theorem ltFollower_of_isAlpha (c : Char) (h : c.isAlpha = true) :
    ltFollower c = true := by
  simp [ltFollower, h]

theorem ltOk_lt_name (n : List Char) (h : nameOk n = true) :
    ltOk ('<' :: n) = true ∧ ('<' :: n).getLast? ≠ some '<' := by
  cases n with
  | nil => exact absurd h (by decide)
  | cons c rest =>
    have hno := noLt_of_nameOk _ h
    rw [nameOk] at h
    simp only [Bool.and_eq_true] at h
    constructor
    · rw [ltOk_cons_lt]
      simp only [Bool.and_eq_true]
      exact ⟨ltFollower_of_isAlpha c h.1, ltOk_of_noLt _ hno⟩
    · rw [List.getLast?_cons_cons]
      exact getLast?_ne_of_noLt _ hno

theorem ltOk_lt_slash_name (n : List Char) (h : nameOk n = true) :
    ltOk ('<' :: '/' :: n) = true ∧ ('<' :: '/' :: n).getLast? ≠ some '<' := by
  cases n with
  | nil => exact absurd h (by decide)
  | cons c rest =>
    have hno := noLt_of_nameOk _ h
    constructor
    · rw [ltOk_cons_lt]
      simp only [Bool.and_eq_true]
      refine ⟨by decide, ?_⟩
      rw [ltOk_cons_ne '/' _ (by decide)]
      exact ltOk_of_noLt _ hno
    · rw [List.getLast?_cons_cons, List.getLast?_cons_cons]
      exact getLast?_ne_of_noLt _ hno

theorem ltOk_chunk_close :
    ltOk ['/', '>', '\n'] = true ∧ (['/', '>', '\n'] : List Char).getLast? ≠ some '<' := by
  decide

theorem ltOk_chunk_gtnl :
    ltOk ['>', '\n'] = true ∧ (['>', '\n'] : List Char).getLast? ≠ some '<' := by
  decide

mutual
theorem ltOk_canonElem (ind : List Char) (t : XmlTree)
    (hind : noLt ind = true) (ht : treeOk t = true) :
    ltOk (canonElem ind t) = true ∧ (canonElem ind t).getLast? ≠ some '<' := by
  cases t with
  | elem tag attrs kids =>
    rw [treeOk] at ht
    simp only [Bool.and_eq_true] at ht
    obtain ⟨⟨htag, hattrs⟩, hkids⟩ := ht
    cases kids with
    | nil =>
      rw [canonElem]
      exact ltOk_append_both _ _
        (ltOk_append_both _ _
          (ltOk_append_both _ _ (ltOk_info_of_noLt ind hind) (ltOk_lt_name tag.data htag))
          (ltOk_info_of_noLt _ (noLt_canonAttrs attrs hattrs)))
        ltOk_chunk_close
    | cons k ks =>
      rw [canonElem]
      refine ltOk_append_both _ _
        (ltOk_append_both _ _
          (ltOk_append_both _ _ (ltOk_info_of_noLt ind hind) (ltOk_lt_name tag.data htag))
          (ltOk_info_of_noLt _ (noLt_canonAttrs attrs hattrs)))
        (ltOk_append_both _ _
          (ltOk_append_both _ _
            (ltOk_append_both _ _
              (ltOk_append_both _ _ ltOk_chunk_gtnl ?_)
              (ltOk_info_of_noLt ind hind))
            (ltOk_lt_slash_name tag.data htag))
          ltOk_chunk_gtnl)
      exact ltOk_canonKids (ind ++ "    ".data) (k :: ks)
        (by rw [noLt_append, hind]; decide) hkids

theorem ltOk_canonKids (ind : List Char) (ts : List XmlTree)
    (hind : noLt ind = true) (hts : kidsOk ts = true) :
    ltOk (canonKids ind ts) = true ∧ (canonKids ind ts).getLast? ≠ some '<' := by
  cases ts with
  | nil =>
    constructor
    · rfl
    · rw [canonKids]
      simp
  | cons t ts =>
    rw [kidsOk] at hts
    simp only [Bool.and_eq_true] at hts
    rw [canonKids]
    exact ltOk_append_both _ _ (ltOk_canonElem ind t hind hts.1)
      (ltOk_canonKids ind ts hind hts.2)
end

/-- Any document that is well formed in the sense of `WellFormedTestDoc`
satisfies the `ltOk` scan. -/
theorem ltOk_of_wellFormed (s : String) (h : WellFormedTestDoc s) :
    ltOk s.data = true := by
  obtain ⟨t, ht, rfl⟩ := h
  have hd : (_TEST_MODULE_HEADER ++ String.mk (canonElem [] t)).data =
      _TEST_MODULE_HEADER.data ++ canonElem [] t := by
    simp [String.data_append]
  rw [hd]
  exact (ltOk_append_both _ _ (by decide) (ltOk_canonElem [] t (by decide) ht)).1

/-! ## Supporting lemmas for the generated-descriptor claims -/

theorem goodPkg_val (p : String) (h : goodPkg p = true) :
    p.data.all valOkChar = true := by
  simp only [goodPkg, List.all_eq_true, Bool.and_eq_true] at h
  simp only [List.all_eq_true]
  exact fun c hc => (h c hc).2

theorem goodPkg_safe (p : String) (h : goodPkg p = true) :
    p.data.all (fun c => c != '&' && c != '<') = true := by
  simp only [goodPkg, List.all_eq_true, Bool.and_eq_true] at h
  simp only [List.all_eq_true, Bool.and_eq_true]
  exact fun c hc => (h c hc).1

theorem treeOk_testConfiguration (p : String) (h : p.data.all valOkChar = true) :
    treeOk (testConfiguration p) = true := by
  simp [testConfiguration, _MODULE_PREPARERS, _add_element_with_option,
    _CONFIG_TYPE_TARGET_PREPARER, _CONFIG_TYPE_TEST, _CSUITE_LAUNCH_TEST_CLASS,
    treeOk, kidsOk, attrsOk, nameOk, nameOkChar, valOkChar, h]

theorem safeTree_testConfiguration (p : String)
    (h : p.data.all (fun c => c != '&' && c != '<') = true) :
    safeTree (testConfiguration p) = true := by
  simp [testConfiguration, _MODULE_PREPARERS, _add_element_with_option,
    _CONFIG_TYPE_TARGET_PREPARER, _CONFIG_TYPE_TEST, _CSUITE_LAUNCH_TEST_CLASS,
    safeTree, safeKids, safeAttrs, noAmp, h]

/-! ## Lemmas about the filesystem model -/

theorem except_bind_ok {α β : Type} (x : Except FsError α) (f : α → Except FsError β) (b : β)
    (h : (x >>= f) = .ok b) : ∃ a, x = .ok a ∧ f a = .ok b := by
  cases x with
  | error e => simp [Bind.bind, Except.bind] at h
  | ok a =>
    refine ⟨a, rfl, ?_⟩
    simpa [Bind.bind, Except.bind] using h

theorem auto_generated_build (p : String) :
    _is_auto_generated (write_build_module p) = true := by
  rw [_is_auto_generated, containsSubstr, decide_eq_true_eq]
  refine ⟨_BUILD_MODULE_HEADER_PREFIX.data, ("\n\n" ++ buildModuleTemplate p).data, ?_⟩
  simp [write_build_module, _BUILD_MODULE_HEADER, List.append_assoc]

theorem auto_generated_test (p : String) :
    _is_auto_generated (write_test_module p) = true := by
  rw [_is_auto_generated, containsSubstr, decide_eq_true_eq]
  refine ⟨_TEST_MODULE_HEADER_PREFIX.data,
    ("-->\n\n" ++ _prettify (testConfiguration p)).data, ?_⟩
  simp [write_test_module, _TEST_MODULE_HEADER, List.append_assoc]

theorem dropWhile_eq_self_of_head {α : Type} (p : α → Bool) (l : List α)
    (h : ∀ x, l.head? = some x → p x = false) : l.dropWhile p = l := by
  cases l with
  | nil => rfl
  | cons a as =>
    rw [List.dropWhile_cons, if_neg]
    simp [h a rfl]

theorem head?_of_isPrefix {α : Type} {l₁ l₂ : List α} {a : α}
    (h : l₁ <+: l₂) (ha : l₁.head? = some a) : l₂.head? = some a := by
  obtain ⟨t, rfl⟩ := h
  cases l₁ with
  | nil => simp at ha
  | cons b bs =>
    simp only [List.head?_cons, Option.some.injEq] at ha
    simp [ha]

theorem pyStrip_idem (s : String) : pyStrip (pyStrip s) = pyStrip s := by
  rw [pyStrip, pyStrip]
  have hA : ∀ x, (s.data.dropWhile pyIsSpace).head? = some x → pyIsSpace x = false := by
    intro x hx
    have := List.head?_dropWhile_not pyIsSpace s.data
    rw [hx] at this
    exact this
  set A := s.data.dropWhile pyIsSpace with hAdef
  set C := A.reverse.dropWhile pyIsSpace with hCdef
  set B := C.reverse with hBdef
  have hBpre : B <+: A := by
    rw [hBdef, ← A.reverse_reverse]
    exact (List.reverse_prefix).2 (List.dropWhile_suffix pyIsSpace)
  have hBhead : ∀ x, B.head? = some x → pyIsSpace x = false := by
    intro x hx
    exact hA x (head?_of_isPrefix hBpre hx)
  have h1 : (String.mk B).data = B := rfl
  rw [h1, dropWhile_eq_self_of_head _ _ hBhead, hBdef, C.reverse_reverse,
    dropWhile_eq_self_of_head pyIsSpace C ?hC]
  intro x hx
  have := List.head?_dropWhile_not pyIsSpace A.reverse
  rw [hCdef] at hx
  rw [hx] at this
  exact this

theorem parse_package_list_nodup (fileLines : List String) :
    (parse_package_list fileLines).Nodup :=
  List.Nodup.filter _ (List.nodup_dedup _)

theorem parse_package_list_mem (fileLines : List String) (x : String) :
    x ∈ parse_package_list fileLines ↔
      ((∃ l ∈ fileLines, pyStrip l = x) ∧ ¬ x = "" ∧ pyStartsWith x "#" = false) := by
  simp only [parse_package_list, List.mem_filter, List.mem_dedup, List.mem_map,
    Bool.not_eq_true', Bool.or_eq_false_iff, beq_eq_false_iff_ne, ne_eq]

theorem parse_package_list_stripped (fileLines : List String) (x : String)
    (h : x ∈ parse_package_list fileLines) : pyStrip x = x := by
  obtain ⟨⟨l, -, rfl⟩, -, -⟩ := (parse_package_list_mem fileLines _).1 h
  exact pyStrip_idem l

theorem keep_split (e : DirPath × String) :
    (!(globMatch _ANDROID_BP_FILE_NAME e.1 && _is_auto_generated e.2) &&
     !(globMatch _ANDROID_XML_FILE_NAME e.1 && _is_auto_generated e.2)) = keepFile e := by
  rw [keepFile]
  cases globMatch _ANDROID_XML_FILE_NAME e.1 <;>
    cases globMatch _ANDROID_BP_FILE_NAME e.1 <;>
    cases _is_auto_generated e.2 <;> rfl

theorem cleanup_eq (fs : Fs)
    (h1 : fs.dirs.any (globMatch _ANDROID_XML_FILE_NAME) = false)
    (h2 : fs.dirs.any (globMatch _ANDROID_BP_FILE_NAME) = false) :
    remove_existing_package_files fs =
      .ok ⟨fs.files.filter keepFile,
           fs.dirs.filter (emptyDirPred ⟨fs.files.filter keepFile, fs.dirs⟩)⟩ := by
  rw [remove_existing_package_files]
  rw [removeGlobbed, if_neg (by simp [h1])]
  simp only [Bind.bind, Except.bind]
  rw [removeGlobbed, if_neg (by simp [h2])]
  simp only [_remove_empty_dirs]
  have hff : (fs.files.filter
        (fun e => !(globMatch _ANDROID_XML_FILE_NAME e.1 && _is_auto_generated e.2))).filter
        (fun e => !(globMatch _ANDROID_BP_FILE_NAME e.1 && _is_auto_generated e.2)) =
      fs.files.filter keepFile := by
    rw [List.filter_filter]
    exact List.filter_congr (fun e _ => keep_split e)
  simp only [hff]

theorem cleanup_ok_inv (fs fs' : Fs) (h : remove_existing_package_files fs = .ok fs') :
    fs.dirs.any (globMatch _ANDROID_XML_FILE_NAME) = false ∧
    fs.dirs.any (globMatch _ANDROID_BP_FILE_NAME) = false ∧
    fs' = ⟨fs.files.filter keepFile,
           fs.dirs.filter (emptyDirPred ⟨fs.files.filter keepFile, fs.dirs⟩)⟩ := by
  by_cases c1 : fs.dirs.any (globMatch _ANDROID_XML_FILE_NAME) = true
  · rw [remove_existing_package_files, removeGlobbed, if_pos (by simp [c1])] at h
    simp [Bind.bind, Except.bind] at h
  · have h1 : fs.dirs.any (globMatch _ANDROID_XML_FILE_NAME) = false :=
      Bool.eq_false_iff.2 c1
    by_cases c2 : fs.dirs.any (globMatch _ANDROID_BP_FILE_NAME) = true
    · rw [remove_existing_package_files, removeGlobbed, if_neg (by simp [h1])] at h
      simp only [Bind.bind, Except.bind] at h
      rw [removeGlobbed, if_pos (by simp [c2])] at h
      simp at h
    · have h2 : fs.dirs.any (globMatch _ANDROID_BP_FILE_NAME) = false :=
        Bool.eq_false_iff.2 c2
      refine ⟨h1, h2, ?_⟩
      rw [cleanup_eq fs h1 h2] at h
      exact (Except.ok.inj h).symm

theorem all_eq_false_iff {α : Type} (p : α → Bool) (l : List α) :
    l.all p = false ↔ ∃ e ∈ l, p e = false := by
  induction l with
  | nil => simp
  | cons a as ih =>
    rw [List.all_cons, Bool.and_eq_false_iff, ih]
    constructor
    · rintro (h | ⟨e, he, hp⟩)
      · exact ⟨a, by simp, h⟩
      · exact ⟨e, by simp [he], hp⟩
    · rintro ⟨e, he, hp⟩
      rcases List.mem_cons.1 he with rfl | hmem
      · exact Or.inl hp
      · exact Or.inr ⟨e, hmem, hp⟩

theorem dirIsEmpty_eq_false_iff (fs : Fs) (x : String) :
    dirIsEmpty fs x = false ↔
      (∃ e ∈ fs.files, e.1.length = 2 ∧ e.1.head? = some x) ∨
      (∃ q ∈ fs.dirs, q.length = 2 ∧ q.head? = some x) := by
  rw [dirIsEmpty, Bool.and_eq_false_iff, all_eq_false_iff, all_eq_false_iff]
  have norm : ∀ y : DirPath,
      ((!(y.length == 2 && y.head? == some x)) = false) ↔
        (y.length = 2 ∧ y.head? = some x) := by
    intro y
    simp
  constructor
  · rintro (⟨e, he, hp⟩ | ⟨q, hq, hp⟩)
    · exact Or.inl ⟨e, he, (norm e.1).1 hp⟩
    · exact Or.inr ⟨q, hq, (norm q).1 hp⟩
  · rintro (⟨e, he, hp⟩ | ⟨q, hq, hp⟩)
    · exact Or.inl ⟨e, he, (norm e.1).2 hp⟩
    · exact Or.inr ⟨q, hq, (norm q).2 hp⟩

theorem dirIsEmpty_eq_true_iff (fs : Fs) (x : String) :
    dirIsEmpty fs x = true ↔
      (∀ e ∈ fs.files, ¬(e.1.length = 2 ∧ e.1.head? = some x)) ∧
      (∀ q ∈ fs.dirs, ¬(q.length = 2 ∧ q.head? = some x)) := by
  rw [dirIsEmpty, Bool.and_eq_true, List.all_eq_true, List.all_eq_true]
  have norm : ∀ y : DirPath,
      ((!(y.length == 2 && y.head? == some x)) = true) ↔
        ¬(y.length = 2 ∧ y.head? = some x) := by
    intro y
    simp only [Bool.not_eq_true', Bool.and_eq_false_iff, beq_eq_false_iff_ne, ne_eq, not_and]
    tauto
  constructor
  · rintro ⟨hf, hd⟩
    exact ⟨fun e he => (norm e.1).1 (hf e he), fun q hq => (norm q).1 (hd q hq)⟩
  · rintro ⟨hf, hd⟩
    exact ⟨fun e he => (norm e.1).2 (hf e he), fun q hq => (norm q).2 (hd q hq)⟩

theorem mem_parentsOf_spec : ∀ (p q : DirPath), q ∈ parentsOf p →
    ∃ k, 0 < k ∧ k < p.length ∧ q = p.take k
  | [], q, h => by simp [parentsOf] at h
  | [_], q, h => by simp [parentsOf] at h
  | d :: x :: rest, q, h => by
    rw [parentsOf] at h
    rcases List.mem_cons.1 h with rfl | hmem
    · exact ⟨1, by omega, by simp, by simp⟩
    · obtain ⟨q', hq', rfl⟩ := List.mem_map.1 hmem
      obtain ⟨k, hk0, hklen, hkeq⟩ := mem_parentsOf_spec (x :: rest) q' hq'
      refine ⟨k + 1, by omega,
        by simp only [List.length_cons] at hklen ⊢; omega, ?_⟩
      simp [List.take_succ_cons, ← hkeq]

theorem take_mem_parentsOf : ∀ (p : DirPath) (k : Nat), 0 < k → k < p.length →
    p.take k ∈ parentsOf p
  | [], k, hk0, hklen => by simp at hklen
  | [_], k, hk0, hklen => by simp at hklen; omega
  | d :: x :: rest, k, hk0, hklen => by
    rw [parentsOf]
    match k, hk0 with
    | 1, _ => simp
    | k' + 2, _ =>
      refine List.mem_cons.2 (Or.inr (List.mem_map.2 ⟨(x :: rest).take (k' + 1), ?_, ?_⟩))
      · exact take_mem_parentsOf (x :: rest) (k' + 1) (by omega)
          (by simp only [List.length_cons] at hklen ⊢; omega)
      · simp [List.take_succ_cons]

theorem head_mem_parentsOf (d x : String) (rest : List String) :
    [d] ∈ parentsOf (d :: x :: rest) := by
  rw [parentsOf]
  simp

theorem fsClosed_file_parent (fs : Fs) (hcl : fsClosed fs = true)
    {e : DirPath × String} (he : e ∈ fs.files) {q : DirPath}
    (hq : q ∈ parentsOf e.1) : q ∈ fs.dirs := by
  rw [fsClosed, Bool.and_eq_true] at hcl
  have h1 := List.all_eq_true.1 hcl.1 e he
  have h2 := List.all_eq_true.1 h1 q hq
  simpa using h2

theorem fsClosed_dir_parent (fs : Fs) (hcl : fsClosed fs = true)
    {d : DirPath} (hd : d ∈ fs.dirs) {q : DirPath}
    (hq : q ∈ parentsOf d) : q ∈ fs.dirs := by
  rw [fsClosed, Bool.and_eq_true] at hcl
  have h1 := List.all_eq_true.1 hcl.2 d hd
  have h2 := List.all_eq_true.1 h1 q hq
  simpa using h2

theorem genFilesRev_mem (ps : List String) (e : DirPath × String) :
    e ∈ genFilesRev ps ↔ ∃ p ∈ ps,
      e = ([p, _ANDROID_XML_FILE_NAME], write_test_module p) ∨
      e = ([p, _ANDROID_BP_FILE_NAME], write_build_module p) := by
  induction ps with
  | nil => simp [genFilesRev]
  | cons p ps ih =>
    rw [genFilesRev, List.mem_append, ih]
    constructor
    · rintro (⟨q, hq, hor⟩ | h)
      · exact ⟨q, List.mem_cons_of_mem _ hq, hor⟩
      · rcases List.mem_cons.1 h with rfl | h2
        · exact ⟨p, by simp, Or.inl rfl⟩
        · rcases List.mem_singleton.1 h2 with rfl
          exact ⟨p, by simp, Or.inr rfl⟩
    · rintro ⟨q, hq, hor⟩
      rcases List.mem_cons.1 hq with rfl | hq2
      · right
        rcases hor with rfl | rfl
        · simp
        · simp
      · exact Or.inl ⟨q, hq2, hor⟩

theorem genDirsRev_mem (ps : List String) (q : DirPath) :
    q ∈ genDirsRev ps ↔ ∃ p ∈ ps, q = [p] := by
  induction ps with
  | nil => simp [genDirsRev]
  | cons p ps ih =>
    rw [genDirsRev, List.mem_append, ih]
    constructor
    · rintro (⟨r, hr, rfl⟩ | h)
      · exact ⟨r, List.mem_cons_of_mem _ hr, rfl⟩
      · rcases List.mem_singleton.1 h with rfl
        exact ⟨p, by simp, rfl⟩
    · rintro ⟨r, hr, rfl⟩
      rcases List.mem_cons.1 hr with rfl | hr2
      · simp
      · exact Or.inl ⟨r, hr2, rfl⟩

theorem generate_module_files_eq (fs : Fs) (p : String) (hcl : fsClosed fs = true)
    (hdir : [p] ∉ fs.dirs) (hfile : ∀ e ∈ fs.files, e.1 ≠ [p]) :
    _generate_module_files fs p =
      .ok ⟨([p, _ANDROID_XML_FILE_NAME], write_test_module p) ::
           ([p, _ANDROID_BP_FILE_NAME], write_build_module p) :: fs.files,
           [p] :: fs.dirs⟩ := by
  have hno2 : ∀ e ∈ fs.files, ∀ f : String, e.1 ≠ [p, f] := by
    intro e he f heq
    have hq : [p] ∈ parentsOf e.1 := by
      rw [heq]
      exact head_mem_parentsOf p f []
    exact hdir (fsClosed_file_parent fs hcl he hq)
  rw [_generate_module_files, _create_package_dir, if_neg ?hc]
  case hc =>
    rw [Bool.or_eq_true, decide_eq_true_eq, not_or]
    refine ⟨hdir, ?_⟩
    intro hany
    rw [List.any_eq_true] at hany
    obtain ⟨e, he, hbe⟩ := hany
    exact hfile e he (by simpa using hbe)
  simp only [Bind.bind, Except.bind]
  have hf1 : fs.files.filter (fun e => e.1 != [p, _ANDROID_BP_FILE_NAME]) = fs.files := by
    rw [List.filter_eq_self]
    intro e he
    simpa using hno2 e he _
  have hf2 : (([p, _ANDROID_BP_FILE_NAME], write_build_module p) :: fs.files).filter
      (fun e => e.1 != [p, _ANDROID_XML_FILE_NAME]) =
      ([p, _ANDROID_BP_FILE_NAME], write_build_module p) :: fs.files := by
    rw [List.filter_eq_self]
    intro e he
    rcases List.mem_cons.1 he with rfl | hmem
    · simp [_ANDROID_BP_FILE_NAME, _ANDROID_XML_FILE_NAME]
    · simpa using hno2 e hmem _
  simp only [writeFile, hf1, hf2]

theorem generate_module_files_ok_inv (fs fs1 : Fs) (p : String)
    (hcl : fsClosed fs = true)
    (h : _generate_module_files fs p = .ok fs1) :
    [p] ∉ fs.dirs ∧ (∀ e ∈ fs.files, e.1 ≠ [p]) ∧
    fs1 = ⟨([p, _ANDROID_XML_FILE_NAME], write_test_module p) ::
           ([p, _ANDROID_BP_FILE_NAME], write_build_module p) :: fs.files,
           [p] :: fs.dirs⟩ := by
  by_cases c : (decide ([p] ∈ fs.dirs) || fs.files.any (fun e => e.1 == [p])) = true
  · exfalso
    rw [_generate_module_files, _create_package_dir, if_pos c] at h
    simp [Bind.bind, Except.bind] at h
  · rw [Bool.or_eq_true, decide_eq_true_eq, not_or] at c
    have hdir : [p] ∉ fs.dirs := c.1
    have hfile : ∀ e ∈ fs.files, e.1 ≠ [p] := by
      intro e he heq
      have : fs.files.any (fun e => e.1 == [p]) = true :=
        List.any_eq_true.2 ⟨e, he, by simp [heq]⟩
      exact c.2 this
    refine ⟨hdir, hfile, ?_⟩
    rw [generate_module_files_eq fs p hcl hdir hfile] at h
    exact (Except.ok.inj h).symm

theorem fsClosed_gen_step (fs : Fs) (p : String) (hcl : fsClosed fs = true) :
    fsClosed ⟨([p, _ANDROID_XML_FILE_NAME], write_test_module p) ::
              ([p, _ANDROID_BP_FILE_NAME], write_build_module p) :: fs.files,
              [p] :: fs.dirs⟩ = true := by
  rw [fsClosed, Bool.and_eq_true] at hcl ⊢
  constructor
  · rw [List.all_eq_true]
    rintro e he
    rcases List.mem_cons.1 he with rfl | he
    · rw [List.all_eq_true]
      intro q hq
      obtain ⟨k, hk0, hklen, rfl⟩ := mem_parentsOf_spec _ q hq
      simp only [List.length_cons, List.length_nil] at hklen
      have : k = 1 := by omega
      subst this
      simp
    rcases List.mem_cons.1 he with rfl | he
    · rw [List.all_eq_true]
      intro q hq
      obtain ⟨k, hk0, hklen, rfl⟩ := mem_parentsOf_spec _ q hq
      simp only [List.length_cons, List.length_nil] at hklen
      have : k = 1 := by omega
      subst this
      simp
    · have h1 := List.all_eq_true.1 hcl.1 e he
      rw [List.all_eq_true] at h1 ⊢
      intro q hq
      have hmem : q ∈ fs.dirs := by simpa using h1 q hq
      simp [hmem]
  · rw [List.all_eq_true]
    rintro d hd
    rcases List.mem_cons.1 hd with rfl | hd
    · rw [List.all_eq_true]
      intro q hq
      simp [parentsOf] at hq
    · have h1 := List.all_eq_true.1 hcl.2 d hd
      rw [List.all_eq_true] at h1 ⊢
      intro q hq
      have hmem : q ∈ fs.dirs := by simpa using h1 q hq
      simp [hmem]

theorem any_eq_false_iff {α : Type} (p : α → Bool) (l : List α) :
    l.any p = false ↔ ∀ e ∈ l, p e = false := by
  rw [← Bool.not_eq_true, List.any_eq_true]
  push_neg
  constructor
  · intro h e he
    exact Bool.eq_false_iff.2 (h e he)
  · intro h e he
    rw [h e he]
    simp

theorem generateLoop_ok_inv : ∀ (ps : List String) (fs fs' : Fs),
    (∀ p ∈ ps, pyStrip p = p) →
    fsClosed fs = true →
    generateLoop fs ps = .ok fs' →
    fs'.files = genFilesRev ps ++ fs.files ∧
    fs'.dirs = genDirsRev ps ++ fs.dirs ∧
    (∀ p ∈ ps, [p] ∉ fs.dirs ∧ ∀ e ∈ fs.files, e.1 ≠ [p])
  | [], fs, fs', _, _, h => by
    rw [generateLoop] at h
    obtain rfl := (Except.ok.inj h)
    simp [genFilesRev, genDirsRev]
  | p :: ps, fs, fs', hstrip, hcl, h => by
    rw [generateLoop] at h
    obtain ⟨fs1, hgen, hloop⟩ := except_bind_ok _ _ _ h
    rw [hstrip p (by simp)] at hgen
    obtain ⟨hdir, hfile, rfl⟩ := generate_module_files_ok_inv fs fs1 p hcl hgen
    have hcl1 := fsClosed_gen_step fs p hcl
    obtain ⟨hfiles, hdirs, hfresh⟩ :=
      generateLoop_ok_inv ps _ fs' (fun q hq => hstrip q (by simp [hq])) hcl1 hloop
    refine ⟨?_, ?_, ?_⟩
    · rw [hfiles]
      simp [genFilesRev, List.append_assoc]
    · rw [hdirs]
      simp [genDirsRev, List.append_assoc]
    · intro q hq
      rcases List.mem_cons.1 hq with rfl | hq2
      · exact ⟨hdir, hfile⟩
      · obtain ⟨hd1, hf1⟩ := hfresh q hq2
        constructor
        · intro hmem
          exact hd1 (by simp [hmem])
        · intro e he
          exact hf1 e (by simp [he])

theorem generateLoop_ok_of : ∀ (ps : List String) (fs : Fs),
    (∀ p ∈ ps, pyStrip p = p) →
    fsClosed fs = true →
    ps.Nodup →
    (∀ p ∈ ps, [p] ∉ fs.dirs ∧ ∀ e ∈ fs.files, e.1 ≠ [p]) →
    generateLoop fs ps = .ok ⟨genFilesRev ps ++ fs.files, genDirsRev ps ++ fs.dirs⟩
  | [], fs, _, _, _, _ => by
    rw [generateLoop]
    simp [genFilesRev, genDirsRev]
  | p :: ps, fs, hstrip, hcl, hnd, hfresh => by
    rw [generateLoop, hstrip p (by simp),
      generate_module_files_eq fs p hcl (hfresh p (by simp)).1 (hfresh p (by simp)).2]
    simp only [Bind.bind, Except.bind]
    rw [generateLoop_ok_of ps _ (fun q hq => hstrip q (by simp [hq]))
      (fsClosed_gen_step fs p hcl) (List.Nodup.of_cons hnd) ?fr]
    case fr =>
      intro q hq
      have hne : q ≠ p := by
        intro hqp
        exact (List.nodup_cons.1 hnd).1 (hqp ▸ hq)
      obtain ⟨hd1, hf1⟩ := hfresh q (by simp [hq])
      constructor
      · intro hmem
        rcases List.mem_cons.1 hmem with heq | hmem2
        · rw [List.cons.injEq] at heq
          exact hne heq.1
        · exact hd1 hmem2
      · intro e he
        rcases List.mem_cons.1 he with rfl | he
        · simp
        rcases List.mem_cons.1 he with rfl | he
        · simp
        · exact hf1 e he
    simp [genFilesRev, genDirsRev, List.append_assoc]

theorem mid_nonempty_of_file_child (fs : Fs) (hcl : fsClosed fs = true)
    (e : DirPath × String) (he : e ∈ fs.files.filter keepFile)
    (x : String) (rest : List String) (hw : e.1 = x :: rest) (hr : rest ≠ []) :
    dirIsEmpty ⟨fs.files.filter keepFile, fs.dirs⟩ x = false := by
  rw [dirIsEmpty_eq_false_iff]
  cases rest with
  | nil => exact absurd rfl hr
  | cons b rest2 =>
    cases rest2 with
    | nil => exact Or.inl ⟨e, he, by simp [hw]⟩
    | cons c rest3 =>
      have hq : (e.1.take 2) ∈ parentsOf e.1 :=
        take_mem_parentsOf e.1 2 (by omega) (by rw [hw]; simp)
      have hdir : e.1.take 2 ∈ fs.dirs :=
        fsClosed_file_parent fs hcl (List.mem_filter.1 he).1 hq
      refine Or.inr ⟨e.1.take 2, hdir, ?_, ?_⟩
      · rw [hw]
        simp
      · rw [hw]
        simp

theorem mid_nonempty_of_dir_child (fs : Fs) (hcl : fsClosed fs = true)
    (w : DirPath) (hwmem : w ∈ fs.dirs)
    (x : String) (rest : List String) (hw : w = x :: rest) (hr : rest ≠ []) :
    dirIsEmpty ⟨fs.files.filter keepFile, fs.dirs⟩ x = false := by
  rw [dirIsEmpty_eq_false_iff]
  cases rest with
  | nil => exact absurd rfl hr
  | cons b rest2 =>
    cases rest2 with
    | nil => exact Or.inr ⟨w, hwmem, by simp [hw], by simp [hw]⟩
    | cons c rest3 =>
      have hq : (w.take 2) ∈ parentsOf w :=
        take_mem_parentsOf w 2 (by omega) (by rw [hw]; simp)
      have hdir : w.take 2 ∈ fs.dirs := fsClosed_dir_parent fs hcl hwmem hq
      refine Or.inr ⟨w.take 2, hdir, ?_, ?_⟩
      · rw [hw]
        simp
      · rw [hw]
        simp

theorem emptyDirPred_true (mid : Fs) (q : DirPath)
    (hlone : ∀ a : String, q = [a] → dirIsEmpty mid a = false) :
    emptyDirPred mid q = true := by
  cases q with
  | nil => rfl
  | cons a t =>
    cases t with
    | nil =>
      have h := hlone a rfl
      show (!dirIsEmpty mid a) = true
      rw [h]
      rfl
    | cons b r => rfl

theorem cleanup_clean (fs fs' : Fs) (hcl : fsClosed fs = true)
    (h : remove_existing_package_files fs = .ok fs') : CleanFs fs' := by
  obtain ⟨hanyx, hanyb, rfl⟩ := cleanup_ok_inv fs fs' h
  refine ⟨?_, ?_, ?_, ?_, ?_⟩
  · intro e he
    exact (List.mem_filter.1 he).2
  · intro x hx
    have hm := List.mem_filter.1 hx
    have hmid : dirIsEmpty ⟨fs.files.filter keepFile, fs.dirs⟩ x = false := by
      have h2 := hm.2
      have h3 : (!dirIsEmpty ⟨fs.files.filter keepFile, fs.dirs⟩ x) = true := h2
      simpa using h3
    rw [dirIsEmpty_eq_false_iff] at hmid ⊢
    rcases hmid with ⟨e, he, hp⟩ | ⟨q, hq, hp⟩
    · exact Or.inl ⟨e, he, hp⟩
    · refine Or.inr ⟨q, List.mem_filter.2 ⟨hq, ?_⟩, hp⟩
      obtain ⟨hlen, -⟩ := hp
      match q, hlen with
      | [a, b], _ => rfl
  · rw [fsClosed, Bool.and_eq_true]
    constructor
    · rw [List.all_eq_true]
      intro e he
      rw [List.all_eq_true]
      intro q hq
      obtain ⟨k, hk0, hklen, hkq⟩ := mem_parentsOf_spec _ q hq
      have hqdir : q ∈ fs.dirs := fsClosed_file_parent fs hcl (List.mem_filter.1 he).1 hq
      have hkeep : emptyDirPred ⟨fs.files.filter keepFile, fs.dirs⟩ q = true := by
        apply emptyDirPred_true
        intro a hqa
        rw [hqa] at hkq
        have htake : e.1.take k = [a] := hkq.symm
        cases hek : e.1 with
        | nil =>
          rw [hek] at htake
          simp at htake
        | cons c ct =>
          rw [hek] at htake hklen
          obtain ⟨k', rfl⟩ := Nat.exists_eq_succ_of_ne_zero (by omega : k ≠ 0)
          rw [List.take_succ_cons, List.cons.injEq] at htake
          obtain ⟨rfl, htk⟩ := htake
          have hct : ct ≠ [] := by
            rcases List.take_eq_nil_iff.1 htk with h0 | h0
            · intro hnil
              rw [hnil] at hklen
              simp at hklen
            · intro hnil
              rw [hnil] at hklen
              simp at hklen
          exact mid_nonempty_of_file_child fs hcl e he c ct hek hct
      have hmem : q ∈ fs.dirs.filter (emptyDirPred ⟨fs.files.filter keepFile, fs.dirs⟩) :=
        List.mem_filter.2 ⟨hqdir, hkeep⟩
      simpa using hmem
    · rw [List.all_eq_true]
      intro w hw
      rw [List.all_eq_true]
      intro q hq
      have hwdir : w ∈ fs.dirs := (List.mem_filter.1 hw).1
      obtain ⟨k, hk0, hklen, hkq⟩ := mem_parentsOf_spec _ q hq
      have hqdir : q ∈ fs.dirs := fsClosed_dir_parent fs hcl hwdir hq
      have hkeep : emptyDirPred ⟨fs.files.filter keepFile, fs.dirs⟩ q = true := by
        apply emptyDirPred_true
        intro a hqa
        rw [hqa] at hkq
        have htake : w.take k = [a] := hkq.symm
        cases hek : w with
        | nil =>
          rw [hek] at htake
          simp at htake
        | cons c ct =>
          rw [hek] at htake hklen
          obtain ⟨k', rfl⟩ := Nat.exists_eq_succ_of_ne_zero (by omega : k ≠ 0)
          rw [List.take_succ_cons, List.cons.injEq] at htake
          obtain ⟨rfl, htk⟩ := htake
          have hct : ct ≠ [] := by
            rcases List.take_eq_nil_iff.1 htk with h0 | h0
            · intro hnil
              rw [hnil] at hklen
              simp at hklen
            · intro hnil
              rw [hnil] at hklen
              simp at hklen
          exact mid_nonempty_of_dir_child fs hcl w hwdir c ct hek hct
      have hmem : q ∈ fs.dirs.filter (emptyDirPred ⟨fs.files.filter keepFile, fs.dirs⟩) :=
        List.mem_filter.2 ⟨hqdir, hkeep⟩
      simpa using hmem
  · rw [any_eq_false_iff]
    intro q hq
    exact (any_eq_false_iff _ _).1 hanyx q (List.mem_filter.1 hq).1
  · rw [any_eq_false_iff]
    intro q hq
    exact (any_eq_false_iff _ _).1 hanyb q (List.mem_filter.1 hq).1

theorem keepFile_gen_xml (p : String) (hdot : pyStartsWith p "." = false) :
    keepFile ([p, _ANDROID_XML_FILE_NAME], write_test_module p) = false := by
  rw [keepFile]
  have hg : globMatch _ANDROID_XML_FILE_NAME [p, _ANDROID_XML_FILE_NAME] = true := by
    rw [globMatch]
    simp [hdot]
  rw [hg]
  simp [auto_generated_test p]

theorem keepFile_gen_bp (p : String) (hdot : pyStartsWith p "." = false) :
    keepFile ([p, _ANDROID_BP_FILE_NAME], write_build_module p) = false := by
  rw [keepFile]
  have hg : globMatch _ANDROID_BP_FILE_NAME [p, _ANDROID_BP_FILE_NAME] = true := by
    rw [globMatch]
    simp [hdot]
  rw [hg]
  simp [auto_generated_build p]

theorem cleanup_of_generated (fsC : Fs) (ps : List String)
    (hclean : CleanFs fsC)
    (hdot : ∀ p ∈ ps, pyStartsWith p "." = false)
    (hfresh : ∀ p ∈ ps, [p] ∉ fsC.dirs) :
    remove_existing_package_files
      ⟨genFilesRev ps ++ fsC.files, genDirsRev ps ++ fsC.dirs⟩ = .ok fsC := by
  obtain ⟨hkeep, hne, hclC, hx, hb⟩ := hclean
  have hgdir : ∀ q ∈ genDirsRev ps, ∀ name, globMatch name q = false := by
    intro q hq name
    obtain ⟨p, -, rfl⟩ := (genDirsRev_mem ps q).1 hq
    rfl
  have h1 : ((genDirsRev ps ++ fsC.dirs).any (globMatch _ANDROID_XML_FILE_NAME)) = false := by
    rw [List.any_append, Bool.or_eq_false_iff]
    exact ⟨(any_eq_false_iff _ _).2 (fun q hq => hgdir q hq _), hx⟩
  have h2 : ((genDirsRev ps ++ fsC.dirs).any (globMatch _ANDROID_BP_FILE_NAME)) = false := by
    rw [List.any_append, Bool.or_eq_false_iff]
    exact ⟨(any_eq_false_iff _ _).2 (fun q hq => hgdir q hq _), hb⟩
  rw [cleanup_eq _ h1 h2]
  have hfiles : (genFilesRev ps ++ fsC.files).filter keepFile = fsC.files := by
    rw [List.filter_append]
    have hg : (genFilesRev ps).filter keepFile = [] := by
      rw [List.filter_eq_nil_iff]
      intro e he
      obtain ⟨p, hp, hor⟩ := (genFilesRev_mem ps e).1 he
      rcases hor with rfl | rfl
      · rw [keepFile_gen_xml p (hdot p hp)]
        simp
      · rw [keepFile_gen_bp p (hdot p hp)]
        simp
    have hs : fsC.files.filter keepFile = fsC.files := List.filter_eq_self.2 hkeep
    rw [hg, hs, List.nil_append]
  rw [hfiles]
  have hdirs : (genDirsRev ps ++ fsC.dirs).filter
      (emptyDirPred ⟨fsC.files, genDirsRev ps ++ fsC.dirs⟩) = fsC.dirs := by
    rw [List.filter_append]
    have hg : (genDirsRev ps).filter
        (emptyDirPred ⟨fsC.files, genDirsRev ps ++ fsC.dirs⟩) = [] := by
      rw [List.filter_eq_nil_iff]
      intro q hq
      obtain ⟨p, hp, rfl⟩ := (genDirsRev_mem ps q).1 hq
      have hemp : dirIsEmpty ⟨fsC.files, genDirsRev ps ++ fsC.dirs⟩ p = true := by
        rw [dirIsEmpty_eq_true_iff]
        constructor
        · rintro e he ⟨hlen, hhead⟩
          have hpar : [p] ∈ parentsOf e.1 := by
            cases hek : e.1 with
            | nil => rw [hek] at hlen; simp at hlen
            | cons c ct =>
              rw [hek] at hlen hhead
              simp only [List.head?_cons, Option.some.injEq] at hhead
              subst hhead
              cases ct with
              | nil => simp at hlen
              | cons b r =>
                cases r with
                | nil => exact head_mem_parentsOf c b []
                | cons b2 r2 => simp at hlen
          have : [p] ∈ fsC.dirs := by
            rw [fsClosed, Bool.and_eq_true] at hclC
            have ha := List.all_eq_true.1 hclC.1 e he
            simpa using List.all_eq_true.1 ha _ hpar
          exact hfresh p hp this
        · rintro q2 hq2 ⟨hlen, hhead⟩
          rcases List.mem_append.1 hq2 with hq2g | hq2c
          · obtain ⟨r, -, rfl⟩ := (genDirsRev_mem ps q2).1 hq2g
            simp at hlen
          · have hpar : [p] ∈ parentsOf q2 := by
              cases hek : q2 with
              | nil => rw [hek] at hlen; simp at hlen
              | cons c ct =>
                rw [hek] at hlen hhead
                simp only [List.head?_cons, Option.some.injEq] at hhead
                subst hhead
                cases ct with
                | nil => simp at hlen
                | cons b r =>
                  cases r with
                  | nil => exact head_mem_parentsOf c b []
                  | cons b2 r2 => simp at hlen
            have : [p] ∈ fsC.dirs := by
              rw [fsClosed, Bool.and_eq_true] at hclC
              have ha := List.all_eq_true.1 hclC.2 q2 hq2c
              simpa using List.all_eq_true.1 ha _ hpar
            exact hfresh p hp this
      show (emptyDirPred ⟨fsC.files, genDirsRev ps ++ fsC.dirs⟩ [p] = true) → False
      intro hpred
      have : (!dirIsEmpty ⟨fsC.files, genDirsRev ps ++ fsC.dirs⟩ p) = true := hpred
      rw [hemp] at this
      simp at this
    have hs : fsC.dirs.filter (emptyDirPred ⟨fsC.files, genDirsRev ps ++ fsC.dirs⟩) =
        fsC.dirs := by
      rw [List.filter_eq_self]
      intro d hd
      apply emptyDirPred_true
      intro a hda
      subst hda
      have hFc : dirIsEmpty fsC a = false := hne a hd
      rw [dirIsEmpty_eq_false_iff] at hFc ⊢
      rcases hFc with ⟨e, he, hp⟩ | ⟨q, hq, hp⟩
      · exact Or.inl ⟨e, he, hp⟩
      · exact Or.inr ⟨q, List.mem_append.2 (Or.inr hq), hp⟩
    rw [hg, hs, List.nil_append]
  rw [hdirs]

/-! ## Claim theorems for the descriptor generator's string output -/

/-- Claim C2: for every package-list input (with duplicates, blank lines
and `#` comment lines), `parse_package_list` yields exactly the distinct,
whitespace-trimmed lines that are non-empty and do not start with `#`:
its output has no duplicates, and membership in it is equivalent to being
the strip of some input line, non-empty, and not starting with `#`. -/
theorem claim_C2 (fileLines : List String) :
    (parse_package_list fileLines).Nodup ∧
    ∀ x : String, x ∈ parse_package_list fileLines ↔
      ((∃ l ∈ fileLines, pyStrip l = x) ∧ ¬ x = "" ∧ pyStartsWith x "#" = false) := by
  constructor
  · exact List.Nodup.filter _ (List.nodup_dedup _)
  · intro x
    simp only [parse_package_list, List.mem_filter, List.mem_dedup, List.mem_map,
      Bool.not_eq_true', Bool.or_eq_false_iff, beq_eq_false_iff_ne, ne_eq]

/-- Claim C5: descriptor generation is deterministic — two invocations of
`write_build_module` and `write_test_module` with the same package
identifier emit byte-identical content.  The embedded generators are pure
functions of the package name alone (the source reads no clock, no
randomness and no environment), which is what this two-run statement
records. -/
theorem claim_C5 (p₁ p₂ : String) (h : p₁ = p₂) :
    write_build_module p₁ = write_build_module p₂ ∧
    write_test_module p₁ = write_test_module p₂ := by
  rw [h]
  exact ⟨rfl, rfl⟩

/-- Witness for claim C5 at a concrete package name. -/
theorem claim_C5_witness :
    "com.example.app" = "com.example.app" ∧
    (write_build_module "com.example.app" = write_build_module "com.example.app" ∧
     write_test_module "com.example.app" = write_test_module "com.example.app") :=
  ⟨rfl, claim_C5 "com.example.app" "com.example.app" rfl⟩

/-- Claim C6: for every package name, the build descriptor contains the
license header text, the auto-generated marker, and the module block
named `csuite_<package>`; the full output is the header followed by the
filled-in `csuite_config` template. -/
theorem claim_C6 (p : String) :
    ContainsSub (write_build_module p) _BUILD_MODULE_HEADER_PREFIX ∧
    ContainsSub (write_build_module p) _AUTO_GENERATE_NOTE ∧
    ContainsSub (write_build_module p) ("name: \"csuite_" ++ p ++ "\"") ∧
    write_build_module p =
      _BUILD_MODULE_HEADER ++ ("csuite_config \x7b\n    name: \"csuite_" ++ p ++ "\",\n\x7d\n") := by
  refine ⟨?_, ?_, ?_, rfl⟩
  · refine ⟨"", _AUTO_GENERATE_NOTE ++ "\n\n" ++ buildModuleTemplate p, ?_⟩
    simp [write_build_module, _BUILD_MODULE_HEADER, String.append_assoc]
  · refine ⟨_BUILD_MODULE_HEADER_PREFIX, "\n\n" ++ buildModuleTemplate p, ?_⟩
    simp [write_build_module, _BUILD_MODULE_HEADER, String.append_assoc]
  · refine ⟨_BUILD_MODULE_HEADER ++ "csuite_config \x7b\n    ", ",\n\x7d\n", ?_⟩
    have hfold : ("csuite_config \x7b\n    " : String) ++ "name: \"csuite_" =
        "csuite_config \x7b\n    name: \"csuite_" := by decide
    have hfold2 : ("\"" : String) ++ ",\n\x7d\n" = "\",\n\x7d\n" := by decide
    simp only [write_build_module, buildModuleTemplate, String.append_assoc, hfold2]
    rw [← hfold]
    simp only [String.append_assoc]

theorem keepFile_iff (e : DirPath × String) :
    keepFile e = true ↔
      ¬((globMatch _ANDROID_XML_FILE_NAME e.1 = true ∨
         globMatch _ANDROID_BP_FILE_NAME e.1 = true) ∧
        _is_auto_generated e.2 = true) := by
  rw [keepFile]
  cases globMatch _ANDROID_XML_FILE_NAME e.1 <;>
    cases globMatch _ANDROID_BP_FILE_NAME e.1 <;>
    cases _is_auto_generated e.2 <;> simp

/-- Claim C1 (amended: `glob.iglob` is called without `recursive=True`,
so the `**` of the pattern matches exactly one path component and, like
every glob wildcard, skips hidden directories; `_remove_empty_dirs` only
examines direct children of the root.  The scan is therefore not
recursive): a successful `remove_existing_package_files` deletes exactly
the `AndroidTest.xml` / `Android.bp` files one level below the root in
non-hidden directories whose content carries the auto-generated marker;
every other file — in particular every file not containing the marker —
is left unchanged; afterwards exactly the direct child directories of
the root with an empty listing are removed, and deeper directories are
untouched. -/
theorem claim_C1 (fs fs' : Fs) (h : remove_existing_package_files fs = .ok fs') :
    (∀ e : DirPath × String, e ∈ fs'.files ↔
       (e ∈ fs.files ∧
         ¬((globMatch _ANDROID_XML_FILE_NAME e.1 = true ∨
            globMatch _ANDROID_BP_FILE_NAME e.1 = true) ∧
           _is_auto_generated e.2 = true))) ∧
    (∀ d ∈ fs'.dirs, d ∈ fs.dirs) ∧
    (∀ d ∈ fs.dirs, d.length ≠ 1 → d ∈ fs'.dirs) ∧
    (∀ x : String, [x] ∈ fs'.dirs ↔
       ([x] ∈ fs.dirs ∧
        dirIsEmpty ⟨fs.files.filter keepFile, fs.dirs⟩ x = false)) := by
  obtain ⟨h1, h2, rfl⟩ := cleanup_ok_inv fs fs' h
  refine ⟨?_, ?_, ?_, ?_⟩
  · intro e
    rw [List.mem_filter, keepFile_iff]
  · intro d hd
    exact (List.mem_filter.1 hd).1
  · intro d hd hlen
    refine List.mem_filter.2 ⟨hd, ?_⟩
    apply emptyDirPred_true
    intro a hda
    exact absurd (by rw [hda]; rfl) hlen
  · intro x
    constructor
    · intro hx
      have hm := List.mem_filter.1 hx
      refine ⟨hm.1, ?_⟩
      have h3 : (!dirIsEmpty ⟨fs.files.filter keepFile, fs.dirs⟩ x) = true := hm.2
      simpa using h3
    · rintro ⟨hmem, hemp⟩
      refine List.mem_filter.2 ⟨hmem, ?_⟩
      show (!dirIsEmpty ⟨fs.files.filter keepFile, fs.dirs⟩ x) = true
      rw [hemp]
      rfl

/-- Counterexample to claim C1 as stated: a marker-carrying
`AndroidTest.xml` two directories below the root is reachable by a
recursive scan and carries the marker, yet the cleanup leaves the whole
filesystem unchanged — the depth-one glob never reaches it. -/
theorem claim_C1_cex :
    remove_existing_package_files
        ⟨[(["a", "b", "AndroidTest.xml"], _AUTO_GENERATE_NOTE)], [["a"], ["a", "b"]]⟩ =
      .ok ⟨[(["a", "b", "AndroidTest.xml"], _AUTO_GENERATE_NOTE)], [["a"], ["a", "b"]]⟩ ∧
    _is_auto_generated _AUTO_GENERATE_NOTE = true := by
  constructor
  · decide
  · decide

/-- Witness for claim C1 at a concrete filesystem: a one-level
auto-generated descriptor is removed and its emptied directory deleted. -/
theorem claim_C1_witness :
    ([("pkg" : String)] ∈ ([] : List (List String)) ↔
      ([("pkg" : String)] ∈ [[("pkg" : String)]] ∧
        dirIsEmpty ⟨List.filter keepFile
            [([("pkg" : String), "AndroidTest.xml"], _AUTO_GENERATE_NOTE)],
          [[("pkg" : String)]]⟩ "pkg" = false)) :=
  (claim_C1 ⟨[(["pkg", "AndroidTest.xml"], _AUTO_GENERATE_NOTE)], [["pkg"]]⟩ ⟨[], []⟩
    (by decide)).2.2.2 "pkg"

/-- Claim C3 (amended: package identifiers must be usable as directory
entries, in particular not begin with a dot — the cleanup glob never
looks into hidden directories, and regeneration then fails with
`FileExistsError` instead of being idempotent, see the counterexample;
the initial filesystem is prefix closed): rerunning the generation with
the same package list succeeds and reproduces the identical filesystem
byte for byte, and rerunning it with a subset of the packages removes
the descriptors of the packages no longer listed while preserving every
file that lacks the auto-generated marker. -/
theorem claim_C3 (fs0 fs1 : Fs) (lines lines' : List String)
    (hcl : fsClosed fs0 = true)
    (hdot : ∀ p ∈ parse_package_list lines, pyStartsWith p "." = false)
    (hsub : ∀ p ∈ parse_package_list lines', p ∈ parse_package_list lines)
    (h1 : generate_all_modules_from_config fs0 lines = .ok fs1) :
    generate_all_modules_from_config fs1 lines = .ok fs1 ∧
    ∃ fs2, generate_all_modules_from_config fs1 lines' = .ok fs2 ∧
      (∀ p ∈ parse_package_list lines, p ∉ parse_package_list lines' →
        ∀ c : String, ([p, _ANDROID_XML_FILE_NAME], c) ∉ fs2.files ∧
                      ([p, _ANDROID_BP_FILE_NAME], c) ∉ fs2.files) ∧
      (∀ e ∈ fs1.files, _is_auto_generated e.2 = false → e ∈ fs2.files) := by
  rw [generate_all_modules_from_config] at h1
  obtain ⟨fsC, hclean0, hloop⟩ := except_bind_ok _ _ _ h1
  obtain ⟨hkeepC, hneC, hclC, hxC, hbC⟩ := cleanup_clean fs0 fsC hcl hclean0
  have hstrip : ∀ p ∈ parse_package_list lines, pyStrip p = p :=
    fun p hp => parse_package_list_stripped lines p hp
  obtain ⟨hfiles1, hdirs1, hfresh⟩ :=
    generateLoop_ok_inv (parse_package_list lines) fsC fs1 hstrip hclC hloop
  have hfs1 : fs1 = ⟨genFilesRev (parse_package_list lines) ++ fsC.files,
      genDirsRev (parse_package_list lines) ++ fsC.dirs⟩ := by
    have : fs1 = ⟨fs1.files, fs1.dirs⟩ := rfl
    rw [this, hfiles1, hdirs1]
  have hclean1 : remove_existing_package_files fs1 = .ok fsC := by
    rw [hfs1]
    exact cleanup_of_generated fsC (parse_package_list lines)
      ⟨hkeepC, hneC, hclC, hxC, hbC⟩ hdot (fun p hp => (hfresh p hp).1)
  constructor
  · rw [generate_all_modules_from_config, hclean1]
    simp only [Bind.bind, Except.bind]
    exact hloop
  · have hstrip' : ∀ p ∈ parse_package_list lines', pyStrip p = p :=
      fun p hp => parse_package_list_stripped lines' p hp
    have hnd' : (parse_package_list lines').Nodup := parse_package_list_nodup lines'
    have hfresh' : ∀ p ∈ parse_package_list lines',
        [p] ∉ fsC.dirs ∧ ∀ e ∈ fsC.files, e.1 ≠ [p] :=
      fun p hp => hfresh p (hsub p hp)
    have hloop' := generateLoop_ok_of (parse_package_list lines') fsC hstrip' hclC hnd' hfresh'
    refine ⟨⟨genFilesRev (parse_package_list lines') ++ fsC.files,
             genDirsRev (parse_package_list lines') ++ fsC.dirs⟩, ?_, ?_, ?_⟩
    · rw [generate_all_modules_from_config, hclean1]
      simp only [Bind.bind, Except.bind]
      exact hloop'
    · intro p hp hnp c
      have hnotC : ∀ f : String, ([p, f], c) ∉ fsC.files := by
        intro f hmem
        have hpar : [p] ∈ parentsOf ([p, f] : DirPath) := head_mem_parentsOf p f []
        have : [p] ∈ fsC.dirs := fsClosed_file_parent fsC hclC hmem hpar
        exact (hfresh p hp).1 this
      constructor
      · intro hmem
        rcases List.mem_append.1 hmem with hg | hc
        · obtain ⟨q, hq, hor⟩ := (genFilesRev_mem _ _).1 hg
          rcases hor with heq | heq
          · rw [Prod.mk.injEq, List.cons.injEq] at heq
            refine hnp ?_
            rw [heq.1.1]
            exact hq
          · rw [Prod.mk.injEq, List.cons.injEq, List.cons.injEq] at heq
            exact absurd heq.1.2.1 (by decide)
        · exact hnotC _ hc
      · intro hmem
        rcases List.mem_append.1 hmem with hg | hc
        · obtain ⟨q, hq, hor⟩ := (genFilesRev_mem _ _).1 hg
          rcases hor with heq | heq
          · rw [Prod.mk.injEq, List.cons.injEq, List.cons.injEq] at heq
            exact absurd heq.1.2.1 (by decide)
          · rw [Prod.mk.injEq, List.cons.injEq] at heq
            refine hnp ?_
            rw [heq.1.1]
            exact hq
        · exact hnotC _ hc
    · intro e he hmark
      rw [hfs1] at he
      rcases List.mem_append.1 he with hg | hc
      · obtain ⟨q, -, hor⟩ := (genFilesRev_mem _ _).1 hg
        rcases hor with rfl | rfl
        · rw [auto_generated_test q] at hmark
          cases hmark
        · rw [auto_generated_build q] at hmark
          cases hmark
      · exact List.mem_append.2 (Or.inr hc)

/-- Counterexample to claim C3 as stated: with the single package-list
line `.x` the first run succeeds, but the second run on its output
raises `FileExistsError` instead of reproducing the descriptors — the
cleanup glob does not look into hidden directories, so the generated
descriptors survive the cleanup and the package directory cannot be
re-created. -/
theorem claim_C3_cex :
    (generate_all_modules_from_config ⟨[], []⟩ [".x"]).isOk = true ∧
    ((generate_all_modules_from_config ⟨[], []⟩ [".x"]).bind
      (fun fs1 => generate_all_modules_from_config fs1 [".x"])) =
      .error .fileExists := by
  constructor
  · decide
  · decide

/-- Witness for claim C3 at a concrete input: one well-formed package
name, an empty root directory, and the empty list as the subset. -/
theorem claim_C3_witness :
    generate_all_modules_from_config
        ⟨[(["com.x", _ANDROID_XML_FILE_NAME], write_test_module "com.x"),
          (["com.x", _ANDROID_BP_FILE_NAME], write_build_module "com.x")],
         [["com.x"]]⟩ ["com.x"] =
      .ok ⟨[(["com.x", _ANDROID_XML_FILE_NAME], write_test_module "com.x"),
            (["com.x", _ANDROID_BP_FILE_NAME], write_build_module "com.x")],
           [["com.x"]]⟩ :=
  (claim_C3 ⟨[], []⟩
    ⟨[(["com.x", _ANDROID_XML_FILE_NAME], write_test_module "com.x"),
      (["com.x", _ANDROID_BP_FILE_NAME], write_build_module "com.x")],
     [["com.x"]]⟩ ["com.x"] [] (by decide) (by decide) (by decide) (by rfl)).1

/-- Claim C4 (amended: for package names that contain neither `&` nor `<`
and only XML-representable characters — for other names the final
`unescape` pass re-introduces raw `&`/`<` into attribute values and the
output is not well formed, see the counterexample): the generated test
module is a well-formed document, contains the auto-generated marker, and
its configuration tree carries the `package-name` option with the package
as value and the children in the fixed order
instrumentation-install preparer, app-setup preparer, key-event preparer
(wake, menu, home) and launch test. -/
theorem claim_C4 (p : String) (h : goodPkg p = true) :
    WellFormedTestDoc (write_test_module p) ∧
    ContainsSub (write_test_module p) _AUTO_GENERATE_NOTE ∧
    (testConfiguration p).children =
      [XmlTree.elem "option"
         [("name", "config-descriptor:metadata"), ("key", "plan"), ("value", "app-launch")] [],
       XmlTree.elem "option" [("name", "package-name"), ("value", p)] [],
       XmlTree.elem "target_preparer"
         [("class", "com.android.tradefed.targetprep.TestAppInstallSetup")]
         [XmlTree.elem "option"
            [("name", "test-file-name"), ("value", "csuite-launch-instrumentation.apk")] []],
       XmlTree.elem "target_preparer"
         [("class", "com.android.compatibility.targetprep.AppSetupPreparer")] [],
       XmlTree.elem "target_preparer"
         [("class", "com.android.tradefed.targetprep.RunCommandTargetPreparer")]
         [XmlTree.elem "option"
            [("name", "run-command"), ("value", "input keyevent KEYCODE_WAKEUP")] [],
          XmlTree.elem "option"
            [("name", "run-command"), ("value", "input keyevent KEYCODE_MENU")] [],
          XmlTree.elem "option"
            [("name", "run-command"), ("value", "input keyevent KEYCODE_HOME")] []],
       XmlTree.elem "test" [("class", "com.android.compatibility.testtype.AppLaunchTest")] []] ∧
    write_test_module p = _TEST_MODULE_HEADER ++ _prettify (testConfiguration p) := by
  refine ⟨?_, ?_, rfl, rfl⟩
  · refine ⟨testConfiguration p, treeOk_testConfiguration p (goodPkg_val p h), ?_⟩
    rw [write_test_module, prettify_eq_canon _ (safeTree_testConfiguration p (goodPkg_safe p h))]
  · refine ⟨_TEST_MODULE_HEADER_PREFIX,
      "-->\n\n" ++ _prettify (testConfiguration p), ?_⟩
    simp [write_test_module, _TEST_MODULE_HEADER, String.append_assoc]

/-- Witness for claim C4 at a concrete package name. -/
theorem claim_C4_witness :
    goodPkg "com.example.app" = true ∧
    WellFormedTestDoc (write_test_module "com.example.app") :=
  ⟨by decide, (claim_C4 "com.example.app" (by decide)).1⟩

/-- Counterexample to claim C4 as stated: for the package name `<` the
generated document is not well formed — the `unescape` pass turns the
escaped attribute value back into a raw `<`, which ends up immediately
followed by the closing quote, something no well-formed document of this
shape can contain. -/
theorem claim_C4_cex : ¬ WellFormedTestDoc (write_test_module "<") :=
  fun h => absurd (ltOk_of_wellFormed _ h) (by decide)

/-! ## C7: directory collisions in `_create_package_dir` and
`PackageRepository.add_package_apks` -/

theorem foldWrite_dirs (p : String) (apks : List (String × String)) :
    ∀ base : Fs,
      (apks.foldl (fun fs f => writeFile fs [p, f.1] f.2) base).dirs = base.dirs := by
  induction apks with
  | nil => intro base; rfl
  | cons a as ih =>
    intro base
    rw [List.foldl_cons, ih]
    rfl

theorem foldWrite_path_shape (p : String) (apks : List (String × String)) :
    ∀ (base : Fs) (e : DirPath × String),
      e ∈ (apks.foldl (fun fs f => writeFile fs [p, f.1] f.2) base).files →
      e ∈ base.files ∨ ∃ nm, e.1 = [p, nm] := by
  induction apks with
  | nil => intro base e h; exact .inl h
  | cons a as ih =>
    intro base e h
    rw [List.foldl_cons] at h
    rcases ih _ e h with h' | h'
    · simp only [writeFile, List.mem_cons, List.mem_filter] at h'
      rcases h' with heq | ⟨hb, _⟩
      · right; exact ⟨a.1, by rw [heq]⟩
      · left; exact hb
    · right; exact h'

theorem foldWrite_mem_other (p : String) (apks : List (String × String)) :
    ∀ (base : Fs) (e : DirPath × String), (∀ nm, e.1 ≠ [p, nm]) →
      (e ∈ (apks.foldl (fun fs f => writeFile fs [p, f.1] f.2) base).files ↔
        e ∈ base.files) := by
  induction apks with
  | nil => intro base e _; exact Iff.rfl
  | cons a as ih =>
    intro base e he
    rw [List.foldl_cons, ih _ e he]
    simp only [writeFile, List.mem_cons, List.mem_filter]
    constructor
    · rintro (heq | ⟨hmem, _⟩)
      · exact absurd (congrArg Prod.fst heq) (he a.1)
      · exact hmem
    · intro hmem
      right
      refine ⟨hmem, ?_⟩
      exact bne_iff_ne.mpr (he a.1)

theorem foldWrite_mem (p : String) (apks : List (String × String)) :
    ∀ base : Fs, (apks.map Prod.fst).Nodup →
      ∀ nm c,
        (([p, nm], c) ∈ (apks.foldl (fun fs f => writeFile fs [p, f.1] f.2) base).files ↔
          ((nm, c) ∈ apks ∨
            (([p, nm], c) ∈ base.files ∧ nm ∉ apks.map Prod.fst))) := by
  induction apks with
  | nil => intro base _ nm c; simp
  | cons a as ih =>
    intro base hnd nm c
    rw [List.map_cons, List.nodup_cons] at hnd
    obtain ⟨hnotin, hndas⟩ := hnd
    rw [List.foldl_cons, ih _ hndas nm c]
    by_cases hnm : nm = a.1
    · subst hnm
      constructor
      · rintro (hin | ⟨hw, _⟩)
        · exact absurd (List.mem_map_of_mem Prod.fst hin) hnotin
        · rcases List.mem_cons.mp hw with heq | hf
          · injection heq with _ hc
            exact .inl (List.mem_cons.mpr (.inl (by rw [hc])))
          · rw [List.mem_filter] at hf
            exact absurd rfl (bne_iff_ne.mp hf.2)
      · rintro (hin | ⟨_, hnot⟩)
        · rcases List.mem_cons.mp hin with heq | hin'
          · have hc : c = a.2 := congrArg Prod.snd heq
            right
            refine ⟨List.mem_cons.mpr (.inl (by rw [hc])), hnotin⟩
          · exact absurd (List.mem_map_of_mem Prod.fst hin') hnotin
        · exact absurd (by rw [List.map_cons]; exact List.mem_cons_self _ _) hnot
    · have hw : (([p, nm], c) ∈ (writeFile base [p, a.1] a.2).files) ↔
          ([p, nm], c) ∈ base.files := by
        simp only [writeFile, List.mem_cons, List.mem_filter]
        constructor
        · rintro (heq | ⟨hb, _⟩)
          · injection heq with hl _
            injection hl with _ hl2
            injection hl2 with hy _
            exact absurd hy hnm
          · exact hb
        · intro hb
          right
          refine ⟨hb, bne_iff_ne.mpr ?_⟩
          intro hx
          injection hx with _ h2
          injection h2 with hy _
          exact hnm hy
      rw [hw]
      simp only [List.mem_cons, List.map_cons]
      constructor
      · rintro (hin | ⟨hb, hnot⟩)
        · exact .inl (.inr hin)
        · refine .inr ⟨hb, ?_⟩
          intro hmem
          rcases hmem with h1 | h2
          · exact hnm h1
          · exact hnot h2
      · rintro ((heq | hin) | ⟨hb, hnot⟩)
        · have h1 : nm = a.1 := congrArg Prod.fst heq
          exact absurd h1 hnm
        · exact .inl hin
        · exact .inr ⟨hb, fun h => hnot (.inr h)⟩

theorem add_package_apks_exists {repo : PackageRepository} {p : String}
    (h : [p] ∈ repo.root.dirs) (apks : List (String × String)) :
    repo.add_package_apks p apks = .error .fileExists := by
  unfold PackageRepository.add_package_apks
  rw [if_pos (.inl h)]

/-- Claim C7: creating a package directory raises on collision instead
of overwriting: `_create_package_dir` raises when the package directory
already exists under the root, `add_package_apks` raises on a second
call for a package already staged, and staging two distinct packages
from a fresh repository succeeds with each package directory holding
exactly the supplied artifact files. -/
theorem claim_C7 (p q : String) (apks apks2 : List (String × String))
    (hpq : p ≠ q) (hnd : (apks.map Prod.fst).Nodup)
    (hnd2 : (apks2.map Prod.fst).Nodup) :
    (∀ fs : Fs, [p] ∈ fs.dirs → _create_package_dir fs p = .error .fileExists) ∧
    (∀ (repo repo2 : PackageRepository) (more : List (String × String)),
        repo.add_package_apks p apks = .ok repo2 →
        repo2.add_package_apks p more = .error .fileExists) ∧
    (∃ r1 r2 : PackageRepository,
        PackageRepository.init.add_package_apks p apks = .ok r1 ∧
        r1.add_package_apks q apks2 = .ok r2 ∧
        (∀ nm c, ([p, nm], c) ∈ r2.root.files ↔ (nm, c) ∈ apks) ∧
        (∀ nm c, ([q, nm], c) ∈ r2.root.files ↔ (nm, c) ∈ apks2) ∧
        (∀ path c, (path, c) ∈ r2.root.files →
            (∃ nm, path = [p, nm]) ∨ (∃ nm, path = [q, nm]))) := by
  refine ⟨?_, ?_, ?_⟩
  · intro fs hmem
    unfold _create_package_dir
    have hcond : (decide ([p] ∈ fs.dirs) || fs.files.any (fun e => e.1 == [p])) = true := by
      rw [Bool.or_eq_true]
      exact .inl (decide_eq_true hmem)
    rw [if_pos hcond]
  · intro repo repo2 more hok
    unfold PackageRepository.add_package_apks at hok
    split at hok
    · simp at hok
    · injection hok with h
      refine add_package_apks_exists ?_ more
      rw [← h]
      show [p] ∈ (apks.foldl (fun fs f => writeFile fs [p, f.1] f.2)
          { repo.root with dirs := [p] :: repo.root.dirs }).dirs
      rw [foldWrite_dirs]
      exact List.mem_cons_self _ _
  · refine ⟨⟨apks.foldl (fun fs f => writeFile fs [p, f.1] f.2) ⟨[], [[p]]⟩⟩,
      ⟨apks2.foldl (fun fs f => writeFile fs [q, f.1] f.2)
        ⟨(apks.foldl (fun fs f => writeFile fs [p, f.1] f.2) ⟨[], [[p]]⟩).files,
         [q] :: (apks.foldl (fun fs f => writeFile fs [p, f.1] f.2) ⟨[], [[p]]⟩).dirs⟩⟩,
      ?_, ?_, ?_, ?_, ?_⟩
    · unfold PackageRepository.add_package_apks
      have hc : ¬([p] ∈ PackageRepository.init.root.dirs ∨
          (PackageRepository.init.root.files.any (fun e => e.1 == [p])) = true) := by
        simp [PackageRepository.init]
      rw [if_neg hc]
      rfl
    · unfold PackageRepository.add_package_apks
      have hc : ¬([q] ∈ (apks.foldl (fun fs f => writeFile fs [p, f.1] f.2)
            ⟨[], [[p]]⟩).dirs ∨
          (((apks.foldl (fun fs f => writeFile fs [p, f.1] f.2)
            ⟨[], [[p]]⟩).files.any (fun e => e.1 == [q]))) = true) := by
        rintro (h | h)
        · rw [foldWrite_dirs] at h
          rcases List.mem_cons.mp h with heq | h2
          · injection heq with hqp _
            exact hpq hqp.symm
          · exact absurd h2 (List.not_mem_nil _)
        · obtain ⟨e, hmem, hbe⟩ := List.any_eq_true.mp h
          rcases foldWrite_path_shape p apks ⟨[], [[p]]⟩ e hmem with h2 | ⟨nm, hnm⟩
          · exact absurd h2 (List.not_mem_nil _)
          · rw [beq_iff_eq, hnm] at hbe
            injection hbe with _ htl
            cases htl
      rw [if_neg hc]
    · intro nm c
      rw [foldWrite_mem_other q apks2 _ ([p, nm], c) (fun nm' hx => by
        injection hx with h1 _
        exact hpq h1)]
      show ([p, nm], c) ∈ (apks.foldl (fun fs f => writeFile fs [p, f.1] f.2)
          ⟨[], [[p]]⟩).files ↔ _
      rw [foldWrite_mem p apks ⟨[], [[p]]⟩ hnd nm c]
      simp
    · intro nm c
      rw [foldWrite_mem q apks2 _ hnd2 nm c]
      have hq1 : ([q, nm], c) ∉ (⟨(apks.foldl (fun fs f => writeFile fs [p, f.1] f.2)
            ⟨[], [[p]]⟩).files,
          [q] :: (apks.foldl (fun fs f => writeFile fs [p, f.1] f.2)
            ⟨[], [[p]]⟩).dirs⟩ : Fs).files := by
        intro hmem
        rcases foldWrite_path_shape p apks ⟨[], [[p]]⟩ ([q, nm], c) hmem with h | ⟨nm', hnm'⟩
        · exact absurd h (List.not_mem_nil _)
        · injection hnm' with h1 _
          exact hpq h1.symm
      simp [hq1]
    · intro path c hmem
      rcases foldWrite_path_shape q apks2 _ (path, c) hmem with h | h
      · rcases foldWrite_path_shape p apks ⟨[], [[p]]⟩ (path, c) h with h2 | h2
        · exact absurd h2 (List.not_mem_nil _)
        · exact .inl h2
      · exact .inr h

/-- Witness for claim C7 at concrete packages and artifacts. -/
theorem claim_C7_witness :
    _create_package_dir ⟨[], [["a"]]⟩ "a" = .error .fileExists :=
  (claim_C7 "a" "b" [("x.apk", "X")] [("y.apk", "Y")]
    (by decide) (by decide) (by decide)).1 ⟨[], [["a"]]⟩ (by decide)

/-! ## C8: `Adb.run` / `Adb.shell` check semantics -/

/-- Claim C8: `shell` delegates to `run` with `'shell'` prepended;
`check` defaults to enabled when the caller passes no value; a
successful `run` returns the captured streams and exit code of the
external command; with `check` enabled a non-zero exit raises a
command-failed error carrying the captured streams; and with `check`
disabled (e.g. uninstalling a package that was never installed) the
call never raises. -/
theorem claim_C8 (world : World) (adb : Adb) (args : List String) (check : Option Bool) :
    Adb.shell world adb args check = Adb.run world adb ("shell" :: args) check ∧
    Adb.run world adb args none = Adb.run world adb args (some true) ∧
    (∀ r, Adb.run world adb args check = .ok r →
        r.args = adb.args ++ args ∧
        r.returncode = (world (adb.args ++ args)).returncode ∧
        r.stdout = (world (adb.args ++ args)).stdout ∧
        r.stderr = (world (adb.args ++ args)).stderr) ∧
    ((world (adb.args ++ args)).returncode ≠ 0 →
        Adb.run world adb args (some true) =
          .error ⟨(world (adb.args ++ args)).returncode, adb.args ++ args,
                  (world (adb.args ++ args)).stdout, (world (adb.args ++ args)).stderr⟩) ∧
    (∀ pkg, ∃ r, Adb.uninstall world adb pkg (some false) = .ok r) := by
  refine ⟨rfl, rfl, ?_, ?_, ?_⟩
  · intro r hr
    simp only [Adb.run, subprocess_run, Option.getD] at hr
    split at hr
    · simp at hr
    · injection hr with h
      subst h
      exact ⟨rfl, rfl, rfl, rfl⟩
  · intro h
    simp only [Adb.run, subprocess_run, Option.getD, Bool.true_and]
    rw [if_pos (bne_iff_ne.mpr h)]
  · intro pkg
    exact ⟨_, rfl⟩

/-- Witness for claim C8 at a concrete failing world. -/
theorem claim_C8_witness :
    ∃ r, Adb.uninstall (fun _ => ⟨1, "out", "err"⟩) ⟨["adb"]⟩ "pkg" (some false) = .ok r :=
  (claim_C8 (fun _ => ⟨1, "out", "err"⟩) ⟨["adb"]⟩ ["x"] none).2.2.2.2 "pkg"

/-! ## C9: `Adb.list_packages` parsing -/

theorem splitColonChars_ne_nil : ∀ l : List Char, splitColonChars l ≠ [] := by
  intro l
  cases l with
  | nil => simp [splitColonChars]
  | cons c cs =>
    simp only [splitColonChars]
    by_cases hc : c = ':'
    · rw [if_pos hc]; simp
    · rw [if_neg hc]
      cases splitColonChars cs with
      | nil => simp
      | cons r rs => simp

theorem splitColon_length_ge_two : ∀ l : List Char, ':' ∈ l →
    2 ≤ (splitColonChars l).length := by
  intro l
  induction l with
  | nil => intro h; cases h
  | cons c cs ih =>
    intro h
    simp only [splitColonChars]
    by_cases hc : c = ':'
    · rw [if_pos hc]
      have hp := List.length_pos.mpr (splitColonChars_ne_nil cs)
      simp only [List.length_cons]
      omega
    · rw [if_neg hc]
      have hmem : ':' ∈ cs := by
        rcases List.mem_cons.mp h with h1 | h2
        · exact absurd h1.symm hc
        · exact h2
      have h2 := ih hmem
      cases hsp : splitColonChars cs with
      | nil => exact absurd hsp (splitColonChars_ne_nil cs)
      | cons r rs =>
        rw [hsp] at h2
        show 2 ≤ ((c :: r) :: rs).length
        simp only [List.length_cons] at h2 ⊢
        omega

theorem splitColonChars_no_colon : ∀ l : List Char, ':' ∉ l →
    splitColonChars l = [l] := by
  intro l
  induction l with
  | nil => intro _; rfl
  | cons c cs ih =>
    intro h
    simp only [List.mem_cons, not_or] at h
    obtain ⟨h1, h2⟩ := h
    simp only [splitColonChars]
    rw [if_neg (fun hc => h1 hc.symm), ih h2]

theorem splitColonChars_append : ∀ pre : List Char, ':' ∉ pre → ∀ rest : List Char,
    splitColonChars (pre ++ ':' :: rest) = pre :: splitColonChars rest := by
  intro pre
  induction pre with
  | nil =>
    intro _ rest
    simp [splitColonChars]
  | cons c cs ih =>
    intro h rest
    simp only [List.mem_cons, not_or] at h
    obtain ⟨h1, h2⟩ := h
    simp only [List.cons_append, splitColonChars]
    rw [if_neg (fun hc => h1 hc.symm)]
    rw [show (cs.append (':' :: rest)) = cs ++ ':' :: rest from rfl, ih h2 rest]

theorem pySplitColon_wf {pre pkgid : String} (h1 : ':' ∉ pre.data) (h2 : ':' ∉ pkgid.data) :
    pySplitColon (pre ++ ":" ++ pkgid) = [pre, pkgid] := by
  have hd : (pre ++ ":" ++ pkgid).data = pre.data ++ ':' :: pkgid.data := by
    rw [String.data_append, String.data_append, List.append_assoc]
    rfl
  unfold pySplitColon
  rw [hd, splitColonChars_append pre.data h1, splitColonChars_no_colon pkgid.data h2]
  rfl

theorem pySplitColon_no_colon {l : String} (h : ':' ∉ l.data) :
    pySplitColon l = [l] := by
  unfold pySplitColon
  rw [splitColonChars_no_colon l.data h]
  rfl

theorem mapM_lineField_ok : ∀ lines : List String, (∀ l ∈ lines, ':' ∈ l.data) →
    lines.mapM lineField =
      .ok (lines.map (fun l => ((pySplitColon l).get? 1).getD "")) := by
  intro lines
  induction lines with
  | nil => intro _; rfl
  | cons a as ih =>
    intro h
    have ha := h a (List.mem_cons_self a as)
    have hlen2 : 2 ≤ (splitColonChars a.data).length := splitColon_length_ge_two a.data ha
    have hlt : 1 < (pySplitColon a).length := by
      unfold pySplitColon
      rw [List.length_map]
      omega
    obtain ⟨x, hx⟩ : ∃ x, (pySplitColon a).get? 1 = some x :=
      ⟨(pySplitColon a).get ⟨1, hlt⟩, List.get?_eq_get hlt⟩
    have hfa : lineField a = .ok (((pySplitColon a).get? 1).getD "") := by
      unfold lineField
      rw [hx]
      rfl
    rw [List.mapM_cons, hfa, ih (fun l hl => h l (List.mem_cons_of_mem a hl))]
    rfl

theorem mapM_lineField_error : ∀ (lines : List String) (l : String), l ∈ lines →
    ':' ∉ l.data → lines.mapM lineField = .error .indexError := by
  intro lines
  induction lines with
  | nil => intro l hmem _; cases hmem
  | cons a as ih =>
    intro l hmem h
    rw [List.mapM_cons]
    rcases List.mem_cons.mp hmem with heq | hmem'
    · subst heq
      have hla : lineField l = .error .indexError := by
        unfold lineField
        rw [pySplitColon_no_colon h]
        rfl
      rw [hla]
      rfl
    · cases hfa : lineField a with
      | error e =>
        have he : e = .indexError := by
          unfold lineField at hfa
          cases hg : (pySplitColon a).get? 1 with
          | some x => rw [hg] at hfa; simp at hfa
          | none =>
            rw [hg] at hfa
            injection hfa with h2
            exact h2.symm
        rw [he]
        rfl
      | ok x =>
        rw [ih l hmem' h]
        rfl

/-- Claim C9 (amended): with the listing command exiting zero,
`list_packages` returns the SECOND colon-separated field of every
stdout line — which is the identifier for lines of the well-formed
`prefix:identifier` shape — and raises only when some line contains no
colon at all; a line with extra colons is not rejected. -/
theorem claim_C9 (world : World) (adb : Adb)
    (hcode : (world (adb.args ++ ["shell", "pm", "list", "packages"])).returncode = 0) :
    ((∀ l ∈ pySplitlines (world (adb.args ++ ["shell", "pm", "list", "packages"])).stdout,
        ':' ∈ l.data) →
      Adb.list_packages world adb =
        .ok ((pySplitlines
            (world (adb.args ++ ["shell", "pm", "list", "packages"])).stdout).map
          (fun l => ((pySplitColon l).get? 1).getD ""))) ∧
    (∀ pre pkgid : String, ':' ∉ pre.data → ':' ∉ pkgid.data →
        ((pySplitColon (pre ++ ":" ++ pkgid)).get? 1).getD "" = pkgid) ∧
    (∀ l, l ∈ pySplitlines
          (world (adb.args ++ ["shell", "pm", "list", "packages"])).stdout →
        ':' ∉ l.data →
      Adb.list_packages world adb = .error .indexError) := by
  have hshell : Adb.shell world adb ["pm", "list", "packages"] none =
      .ok ⟨adb.args ++ ["shell", "pm", "list", "packages"],
           (world (adb.args ++ ["shell", "pm", "list", "packages"])).returncode,
           (world (adb.args ++ ["shell", "pm", "list", "packages"])).stdout,
           (world (adb.args ++ ["shell", "pm", "list", "packages"])).stderr⟩ := by
    simp only [Adb.shell, Adb.run, subprocess_run, Option.getD, Bool.true_and]
    rw [if_neg (fun hc => (bne_iff_ne.mp hc) hcode)]
  have hlp : Adb.list_packages world adb =
      (pySplitlines
        (world (adb.args ++ ["shell", "pm", "list", "packages"])).stdout).mapM lineField := by
    unfold Adb.list_packages
    rw [hshell]
    rfl
  refine ⟨?_, ?_, ?_⟩
  · intro h
    rw [hlp, mapM_lineField_ok _ h]
  · intro pre pkgid h1 h2
    rw [pySplitColon_wf h1 h2]
    rfl
  · intro l hm hn
    rw [hlp]
    exact mapM_lineField_error _ l hm hn

/-- Witness for claim C9 at a concrete well-formed listing. -/
theorem claim_C9_witness :
    Adb.list_packages (fun _ => ⟨0, "package:com.x\n", ""⟩) ⟨["adb"]⟩ = .ok ["com.x"] := by
  rw [(claim_C9 (fun _ => ⟨0, "package:com.x\n", ""⟩) ⟨["adb"]⟩ (by decide)).1 (by decide)]
  decide

/-- Counterexample to claim C9 as stated: the stdout line
`package:a:b` is not of the `prefix:identifier` colon-separated shape,
yet `list_packages` does not raise — it silently returns the middle
field `a`. -/
theorem claim_C9_cex :
    (¬ wellFormedPkgLine "package:a:b") ∧
    pySplitlines "package:a:b\n" = ["package:a:b"] ∧
    Adb.list_packages (fun _ => ⟨0, "package:a:b\n", ""⟩) ⟨["adb"]⟩ = .ok ["a"] := by
  refine ⟨?_, by decide, by decide⟩
  rintro ⟨pre, pkgid, heq, h1, h2⟩
  have hcount : ("package:a:b").data.count ':' = 2 := by decide
  rw [heq, String.data_append, String.data_append, List.count_append,
    List.count_append, List.count_eq_zero.mpr h1, List.count_eq_zero.mpr h2] at hcount
  have hone : ((":" : String).data.count ':') = 1 := by decide
  rw [hone] at hcount
  simp at hcount

/-! ## C10: `CSuiteHarness.run_and_wait` environment contract -/

theorem ebind_ok {ε α β : Type} (a : α) (f : α → Except ε β) :
    (Except.ok a : Except ε α) >>= f = f a := rfl

theorem envDel_ok {env : Env} {k : String} (h : envLookup env k ≠ none) :
    envDel env k = .ok (env.filter (fun e => e.1 != k)) := by
  have hany : (env.any (fun e => e.1 == k)) = true := by
    unfold envLookup at h
    cases hf : env.find? (fun e => e.1 == k) with
    | none => rw [hf] at h; simp at h
    | some e =>
      have hp := List.find?_some hf
      exact List.any_eq_true.mpr ⟨e, List.mem_of_find?_eq_some hf, hp⟩
  unfold envDel
  rw [if_pos hany]

theorem envDel_err {env : Env} {k : String} (h : envLookup env k = none) :
    envDel env k = .error k := by
  have hany : ¬((env.any (fun e => e.1 == k)) = true) := by
    intro ha
    obtain ⟨e, hmem, hp⟩ := List.any_eq_true.mp ha
    unfold envLookup at h
    cases hf : env.find? (fun e => e.1 == k) with
    | some e' => rw [hf] at h; simp at h
    | none => exact (List.find?_eq_none.mp hf e hmem) hp
  unfold envDel
  rw [if_neg hany]

theorem envLookup_filter_self (env : Env) (k : String) :
    envLookup (env.filter (fun e => e.1 != k)) k = none := by
  unfold envLookup
  cases hf : (env.filter (fun e => e.1 != k)).find? (fun e => e.1 == k) with
  | none => rfl
  | some e =>
    have hmem := List.mem_of_find?_eq_some hf
    have hp := List.find?_some hf
    rw [List.mem_filter] at hmem
    exact absurd (beq_iff_eq.mp hp) (bne_iff_ne.mp hmem.2)

theorem envLookup_filter_other (env : Env) {k j : String} (h : j ≠ k) :
    envLookup (env.filter (fun e => e.1 != k)) j = envLookup env j := by
  induction env with
  | nil => rfl
  | cons a as ih =>
    by_cases hak : (a.1 != k) = true
    · rw [@List.filter_cons_of_pos _ (fun e => (e.1 : String) != k) a as hak]
      by_cases haj : (a.1 == j) = true
      · unfold envLookup
        rw [@List.find?_cons_of_pos _ (fun e => (e.1 : String) == j) a _ haj,
          @List.find?_cons_of_pos _ (fun e => (e.1 : String) == j) a _ haj]
      · unfold envLookup
        rw [@List.find?_cons_of_neg _ (fun e => (e.1 : String) == j) a _ haj,
          @List.find?_cons_of_neg _ (fun e => (e.1 : String) == j) a _ haj]
        exact ih
    · rw [@List.filter_cons_of_neg _ (fun e => (e.1 : String) != k) a as hak]
      have hak' : a.1 = k := by
        by_contra hne
        exact hak (bne_iff_ne.mpr hne)
      have haj : ¬((a.1 == j) = true) := by
        rw [beq_iff_eq, hak']
        exact fun hh => h hh.symm
      unfold envLookup
      rw [@List.find?_cons_of_neg _ (fun e => (e.1 : String) == j) a _ haj]
      exact ih

theorem envLookup_set_self (env : Env) (k v : String) :
    envLookup (envSet env k v) k = some v := by
  have hp : (k == k) = true := beq_self_eq_true k
  unfold envSet envLookup
  rw [@List.find?_cons_of_pos _ (fun e => (e.1 : String) == k) (k, v) _ hp]
  rfl

theorem envLookup_set_other (env : Env) {k j v : String} (h : j ≠ k) :
    envLookup (envSet env k v) j = envLookup env j := by
  have hne : ¬((k == j) = true) := by
    rw [beq_iff_eq]
    exact fun hh => h hh.symm
  unfold envSet
  show envLookup ((k, v) :: env.filter (fun e => e.1 != k)) j = envLookup env j
  unfold envLookup
  rw [@List.find?_cons_of_neg _ (fun e => (e.1 : String) == j) (k, v) _ hne]
  exact envLookup_filter_other env h

/-- Claim C10: `run_and_wait` requires all five Android variables in
the inherited environment — deleting a missing one raises `KeyError`
before the launcher is invoked — and when all are present the launcher
runs in the copied environment with the four variables removed,
`ANDROID_TARGET_OUT_TESTCASES` rebound to the fresh test-case
directory, and every other variable untouched. -/
theorem claim_C10 (world : List String → Env → ProcOutcome)
    (launcher testcases_dir : String) (env0 : Env) (flags : List String) :
    ((∃ k ∈ (["ANDROID_BUILD_TOP", "ANDROID_HOST_OUT", "ANDROID_HOST_OUT_TESTCASES",
          "ANDROID_TARGET_OUT_TESTCASES", "ANDROID_SERIAL"] : List String),
        envLookup env0 k = none) →
      ∃ k, run_and_wait world launcher testcases_dir env0 flags = .error k ∧
        envLookup env0 k = none) ∧
    ((∀ k ∈ (["ANDROID_BUILD_TOP", "ANDROID_HOST_OUT", "ANDROID_HOST_OUT_TESTCASES",
          "ANDROID_TARGET_OUT_TESTCASES", "ANDROID_SERIAL"] : List String),
        envLookup env0 k ≠ none) →
      run_and_wait world launcher testcases_dir env0 flags =
        .ok ⟨launcher :: flags,
             (world (launcher :: flags) (finalEnv testcases_dir env0)).returncode,
             (world (launcher :: flags) (finalEnv testcases_dir env0)).stdout,
             (world (launcher :: flags) (finalEnv testcases_dir env0)).stderr⟩ ∧
      envLookup (finalEnv testcases_dir env0) "ANDROID_TARGET_OUT_TESTCASES" =
        some testcases_dir ∧
      (∀ k ∈ (["ANDROID_BUILD_TOP", "ANDROID_HOST_OUT", "ANDROID_HOST_OUT_TESTCASES",
            "ANDROID_SERIAL"] : List String),
        envLookup (finalEnv testcases_dir env0) k = none) ∧
      (∀ j, j ∉ (["ANDROID_BUILD_TOP", "ANDROID_HOST_OUT", "ANDROID_HOST_OUT_TESTCASES",
            "ANDROID_TARGET_OUT_TESTCASES", "ANDROID_SERIAL"] : List String) →
        envLookup (finalEnv testcases_dir env0) j = envLookup env0 j)) := by
  have hne21 : ("ANDROID_HOST_OUT" : String) ≠ "ANDROID_BUILD_TOP" := by decide
  have hne31 : ("ANDROID_HOST_OUT_TESTCASES" : String) ≠ "ANDROID_BUILD_TOP" := by decide
  have hne32 : ("ANDROID_HOST_OUT_TESTCASES" : String) ≠ "ANDROID_HOST_OUT" := by decide
  have hne41 : ("ANDROID_TARGET_OUT_TESTCASES" : String) ≠ "ANDROID_BUILD_TOP" := by decide
  have hne42 : ("ANDROID_TARGET_OUT_TESTCASES" : String) ≠ "ANDROID_HOST_OUT" := by decide
  have hne43 : ("ANDROID_TARGET_OUT_TESTCASES" : String) ≠ "ANDROID_HOST_OUT_TESTCASES" := by
    decide
  have hne51 : ("ANDROID_SERIAL" : String) ≠ "ANDROID_BUILD_TOP" := by decide
  have hne52 : ("ANDROID_SERIAL" : String) ≠ "ANDROID_HOST_OUT" := by decide
  have hne53 : ("ANDROID_SERIAL" : String) ≠ "ANDROID_HOST_OUT_TESTCASES" := by decide
  have hne54 : ("ANDROID_SERIAL" : String) ≠ "ANDROID_TARGET_OUT_TESTCASES" := by decide
  constructor
  · rintro ⟨k, hk, hnone⟩
    by_cases h1 : envLookup env0 "ANDROID_BUILD_TOP" = none
    · refine ⟨"ANDROID_BUILD_TOP", ?_, h1⟩
      unfold run_and_wait
      rw [envDel_err h1]
      rfl
    by_cases h2 : envLookup env0 "ANDROID_HOST_OUT" = none
    · refine ⟨"ANDROID_HOST_OUT", ?_, h2⟩
      unfold run_and_wait
      rw [envDel_ok h1]
      simp only [ebind_ok]
      rw [envDel_err (by rw [envLookup_filter_other env0 hne21]; exact h2)]
      rfl
    by_cases h3 : envLookup env0 "ANDROID_HOST_OUT_TESTCASES" = none
    · refine ⟨"ANDROID_HOST_OUT_TESTCASES", ?_, h3⟩
      unfold run_and_wait
      rw [envDel_ok h1]
      simp only [ebind_ok]
      rw [envDel_ok (show envLookup (env0.filter
          (fun e => e.1 != "ANDROID_BUILD_TOP")) "ANDROID_HOST_OUT" ≠ none by
        rw [envLookup_filter_other env0 hne21]; exact h2)]
      simp only [ebind_ok]
      rw [envDel_err (by
        rw [envLookup_filter_other _ hne32, envLookup_filter_other env0 hne31]; exact h3)]
      rfl
    by_cases h4 : envLookup env0 "ANDROID_TARGET_OUT_TESTCASES" = none
    · refine ⟨"ANDROID_TARGET_OUT_TESTCASES", ?_, h4⟩
      unfold run_and_wait
      rw [envDel_ok h1]
      simp only [ebind_ok]
      rw [envDel_ok (show envLookup (env0.filter
          (fun e => e.1 != "ANDROID_BUILD_TOP")) "ANDROID_HOST_OUT" ≠ none by
        rw [envLookup_filter_other env0 hne21]; exact h2)]
      simp only [ebind_ok]
      rw [envDel_ok (show envLookup ((env0.filter
          (fun e => e.1 != "ANDROID_BUILD_TOP")).filter
          (fun e => e.1 != "ANDROID_HOST_OUT")) "ANDROID_HOST_OUT_TESTCASES" ≠ none by
        rw [envLookup_filter_other _ hne32, envLookup_filter_other env0 hne31]; exact h3)]
      simp only [ebind_ok]
      rw [envDel_err (by
        rw [envLookup_filter_other _ hne43, envLookup_filter_other _ hne42,
          envLookup_filter_other env0 hne41]
        exact h4)]
      rfl
    by_cases h5 : envLookup env0 "ANDROID_SERIAL" = none
    · refine ⟨"ANDROID_SERIAL", ?_, h5⟩
      unfold run_and_wait
      rw [envDel_ok h1]
      simp only [ebind_ok]
      rw [envDel_ok (show envLookup (env0.filter
          (fun e => e.1 != "ANDROID_BUILD_TOP")) "ANDROID_HOST_OUT" ≠ none by
        rw [envLookup_filter_other env0 hne21]; exact h2)]
      simp only [ebind_ok]
      rw [envDel_ok (show envLookup ((env0.filter
          (fun e => e.1 != "ANDROID_BUILD_TOP")).filter
          (fun e => e.1 != "ANDROID_HOST_OUT")) "ANDROID_HOST_OUT_TESTCASES" ≠ none by
        rw [envLookup_filter_other _ hne32, envLookup_filter_other env0 hne31]; exact h3)]
      simp only [ebind_ok]
      rw [envDel_ok (show envLookup (((env0.filter
          (fun e => e.1 != "ANDROID_BUILD_TOP")).filter
          (fun e => e.1 != "ANDROID_HOST_OUT")).filter
          (fun e => e.1 != "ANDROID_HOST_OUT_TESTCASES"))
          "ANDROID_TARGET_OUT_TESTCASES" ≠ none by
        rw [envLookup_filter_other _ hne43, envLookup_filter_other _ hne42,
          envLookup_filter_other env0 hne41]
        exact h4)]
      simp only [ebind_ok]
      rw [envDel_err (by
        rw [envLookup_filter_other _ hne54, envLookup_filter_other _ hne53,
          envLookup_filter_other _ hne52, envLookup_filter_other env0 hne51]
        exact h5)]
      rfl
    · simp only [List.mem_cons, List.not_mem_nil, or_false] at hk
      rcases hk with rfl | rfl | rfl | rfl | rfl
      · exact absurd hnone h1
      · exact absurd hnone h2
      · exact absurd hnone h3
      · exact absurd hnone h4
      · exact absurd hnone h5
  · intro hall
    have h1 := hall "ANDROID_BUILD_TOP" (by decide)
    have h2 := hall "ANDROID_HOST_OUT" (by decide)
    have h3 := hall "ANDROID_HOST_OUT_TESTCASES" (by decide)
    have h4 := hall "ANDROID_TARGET_OUT_TESTCASES" (by decide)
    have h5 := hall "ANDROID_SERIAL" (by decide)
    refine ⟨?_, ?_, ?_, ?_⟩
    · unfold run_and_wait
      rw [envDel_ok h1]
      simp only [ebind_ok]
      rw [envDel_ok (show envLookup (env0.filter
          (fun e => e.1 != "ANDROID_BUILD_TOP")) "ANDROID_HOST_OUT" ≠ none by
        rw [envLookup_filter_other env0 hne21]; exact h2)]
      simp only [ebind_ok]
      rw [envDel_ok (show envLookup ((env0.filter
          (fun e => e.1 != "ANDROID_BUILD_TOP")).filter
          (fun e => e.1 != "ANDROID_HOST_OUT")) "ANDROID_HOST_OUT_TESTCASES" ≠ none by
        rw [envLookup_filter_other _ hne32, envLookup_filter_other env0 hne31]; exact h3)]
      simp only [ebind_ok]
      rw [envDel_ok (show envLookup (((env0.filter
          (fun e => e.1 != "ANDROID_BUILD_TOP")).filter
          (fun e => e.1 != "ANDROID_HOST_OUT")).filter
          (fun e => e.1 != "ANDROID_HOST_OUT_TESTCASES"))
          "ANDROID_TARGET_OUT_TESTCASES" ≠ none by
        rw [envLookup_filter_other _ hne43, envLookup_filter_other _ hne42,
          envLookup_filter_other env0 hne41]
        exact h4)]
      simp only [ebind_ok]
      rw [envDel_ok (show envLookup ((((env0.filter
          (fun e => e.1 != "ANDROID_BUILD_TOP")).filter
          (fun e => e.1 != "ANDROID_HOST_OUT")).filter
          (fun e => e.1 != "ANDROID_HOST_OUT_TESTCASES")).filter
          (fun e => e.1 != "ANDROID_TARGET_OUT_TESTCASES")) "ANDROID_SERIAL" ≠ none by
        rw [envLookup_filter_other _ hne54, envLookup_filter_other _ hne53,
          envLookup_filter_other _ hne52, envLookup_filter_other env0 hne51]
        exact h5)]
      simp only [ebind_ok]
      rfl
    · unfold finalEnv
      exact envLookup_set_self _ _ _
    · intro k hk
      simp only [List.mem_cons, List.not_mem_nil, or_false] at hk
      unfold finalEnv
      rcases hk with rfl | rfl | rfl | rfl
      · rw [envLookup_set_other _ hne41.symm, envLookup_filter_other _ hne51.symm,
          envLookup_filter_other _ hne41.symm, envLookup_filter_other _ hne31.symm,
          envLookup_filter_other _ hne21.symm]
        exact envLookup_filter_self env0 _
      · rw [envLookup_set_other _ hne42.symm, envLookup_filter_other _ hne52.symm,
          envLookup_filter_other _ hne42.symm, envLookup_filter_other _ hne32.symm]
        exact envLookup_filter_self _ _
      · rw [envLookup_set_other _ hne43.symm, envLookup_filter_other _ hne53.symm,
          envLookup_filter_other _ hne43.symm]
        exact envLookup_filter_self _ _
      · rw [envLookup_set_other _ hne54]
        exact envLookup_filter_self _ _
    · intro j hj
      simp only [List.mem_cons, List.not_mem_nil, or_false, not_or] at hj
      obtain ⟨hj1, hj2, hj3, hj4, hj5⟩ := hj
      unfold finalEnv
      rw [envLookup_set_other _ hj4, envLookup_filter_other _ hj5,
        envLookup_filter_other _ hj4, envLookup_filter_other _ hj3,
        envLookup_filter_other _ hj2, envLookup_filter_other env0 hj1]

/-- Witness for claim C10 at a concrete complete environment. -/
theorem claim_C10_witness :
    run_and_wait (fun _ _ => ⟨0, "", ""⟩) "launcher" "tc"
      [("ANDROID_BUILD_TOP", "t"), ("ANDROID_HOST_OUT", "h"),
       ("ANDROID_HOST_OUT_TESTCASES", "htc"), ("ANDROID_TARGET_OUT_TESTCASES", "ttc"),
       ("ANDROID_SERIAL", "s"), ("HOME", "/home/u")] ["--flag"] =
      .ok ⟨["launcher", "--flag"], 0, "", ""⟩ := by
  rw [((claim_C10 (fun _ _ => ⟨0, "", ""⟩) "launcher" "tc"
      [("ANDROID_BUILD_TOP", "t"), ("ANDROID_HOST_OUT", "h"),
       ("ANDROID_HOST_OUT_TESTCASES", "htc"), ("ANDROID_TARGET_OUT_TESTCASES", "ttc"),
       ("ANDROID_SERIAL", "s"), ("HOME", "/home/u")] ["--flag"]).2 (by decide)).1]

end CSuite
